import Mathlib

/-!
Verification of the status-driven newsletter send pipeline:
rich-text rendering, block-to-HTML generation, markdown-to-block
conversion, recipient resolution, delivery dispatch, and the
status webhook handler, shallowly embedded from the TypeScript source.

JavaScript strings are modelled as Lean `String` (or `List Char` where
character-level scanning is required); JavaScript truthiness on
string-valued fields is modelled explicitly (`none` and `some ""` are
falsy); `async` functions that can only fail in ways visible to the
claims carry explicit failure flags in an environment record.
-/

/-- One item of a Notion `rich_text` array, as consumed by the renderers:
its plain text, the boolean style flags of its `annotations` record and
the optional `href`. -/
structure RichItem where
  plain_text : String
  bold : Bool := false
  italic : Bool := false
  code : Bool := false
  underline : Bool := false
  strikethrough : Bool := false
  href : Option String := none
deriving DecidableEq, Repr

/-- JavaScript truthiness of an optional string: `undefined`/`null` and
the empty string are falsy. -/
def strTruthy : Option String → Bool
  | some s => s ≠ ""
  | none => false

namespace HtmlGen

/-- `src/lib/html-generator.ts` `getRichText`, one item: successive
conditional wrapping — underline, then bold, then italic, then code,
then (if `href` is truthy) the anchor. -/
def richItemHtml (t : RichItem) : String :=
  let text := t.plain_text
  let text := if t.underline then "<u>" ++ text ++ "</u>" else text
  let text := if t.bold then "<strong>" ++ text ++ "</strong>" else text
  let text := if t.italic then "<em>" ++ text ++ "</em>" else text
  let text := if t.code then "<code>" ++ text ++ "</code>" else text
  match t.href with
  | some h => if h = "" then text else "<a href=\"" ++ h ++ "\">" ++ text ++ "</a>"
  | none => text

/-- `src/lib/html-generator.ts` `getRichText`: map the items and join.
A `null` rich-text array and an empty one both yield `""`. -/
def getRichText (richText : List RichItem) : String :=
  String.join (richText.map richItemHtml)

/-- `src/lib/html-generator.ts` `getPlainText`. -/
def getPlainText (richText : List RichItem) : String :=
  String.join (richText.map (fun t => t.plain_text))

/-- Conditionally wrap a text in an HTML element (helper used to state
the annotation-nesting order). -/
def wrapTag (flag : Bool) (openT closeT : String) (text : String) : String :=
  if flag then openT ++ text ++ closeT else text

/-- Wrap a text in an anchor when the href is truthy (helper used to
state the annotation-nesting order). -/
def wrapHref (href : Option String) (text : String) : String :=
  match href with
  | some h => if h = "" then text else "<a href=\"" ++ h ++ "\">" ++ text ++ "</a>"
  | none => text

/-- The nesting order the renderer actually uses, outermost first:
link > code > italic > bold > underline. -/
def nestedRender (t : RichItem) : String :=
  wrapHref t.href
    (wrapTag t.code "<code>" "</code>"
      (wrapTag t.italic "<em>" "</em>"
        (wrapTag t.bold "<strong>" "</strong>"
          (wrapTag t.underline "<u>" "</u>" t.plain_text))))

/-- Modelled from the spec: the nesting order the spec claims for the
renderer, outermost first: link > underline > bold > italic > code. -/
def specNestedRender (t : RichItem) : String :=
  wrapHref t.href
    (wrapTag t.underline "<u>" "</u>"
      (wrapTag t.bold "<strong>" "</strong>"
        (wrapTag t.italic "<em>" "</em>"
          (wrapTag t.code "<code>" "</code>" t.plain_text))))

end HtmlGen

/-- A run that is both bold and italic, used to exhibit the renderer's
actual nesting order. -/
def boldItalicRun : RichItem :=
  { plain_text := "x", bold := true, italic := true }

/-- A run that is bold and carries a link. -/
def boldLinkRun : RichItem :=
  { plain_text := "hi", bold := true, href := some "https://x" }

/-- Outcome of one Loops transactional-API call for one recipient:
a 2xx response, a non-2xx response (with its body text), or a thrown
(network) exception. -/
inductive SendOutcome
  | ok
  | httpError (body : String)
  | thrown (msg : String)
deriving DecidableEq, Repr

/-- The `{sent, failed}` tally returned by the delivery dispatchers. -/
structure SendTally where
  sent : Nat := 0
  failed : Nat := 0
deriving DecidableEq, Repr

/-- A recipient as used by the dispatchers (`LoopsContact`): email plus
first name (an absent `firstName` is modelled as `""`; the payload turns
both into the placeholder `"there"`). -/
structure LoopsContact where
  email : String
  firstName : String := ""
deriving DecidableEq, Repr

/-- The serial per-recipient send loop shared verbatim by
`api/newsletter-status.ts` `sendViaLoops` and `src/send-newsletter.ts`
`sendViaLoops`: each recipient gets one API call; a 2xx response
increments `sent`, a non-2xx response or a thrown exception increments
`failed`, and the loop always continues with the next recipient.
`outcome i` is the environment's outcome of the `i`-th call. The second
component is a ghost trace of the emails attempted, in order. -/
def loopsSendLoop (outcome : Nat → SendOutcome) :
    List LoopsContact → Nat → SendTally → SendTally × List String
  | [], _, tally => (tally, [])
  | r :: rest, i, tally =>
    let tally' :=
      match outcome i with
      | .ok => { tally with sent := tally.sent + 1 }
      | .httpError _ => { tally with failed := tally.failed + 1 }
      | .thrown _ => { tally with failed := tally.failed + 1 }
    let res := loopsSendLoop outcome rest (i + 1) tally'
    (res.1, r.email :: res.2)

/-- Number of `ok` outcomes among the calls `start, ..., start+len-1`. -/
def okCount (outcome : Nat → SendOutcome) (start : Nat) : Nat → Nat
  | 0 => 0
  | len + 1 =>
    (if outcome start = SendOutcome.ok then 1 else 0) + okCount outcome (start + 1) len

namespace StatusApi

/-- The environment-variable configuration read by
`api/newsletter-status.ts` (with the source's defaults for the test
recipient). -/
structure ApiConfig where
  webhookSecret : Option String := none
  testEmail : String := "your-email@example.com"
  testEmailName : String := "Test"
  loopsApiKey : Option String := none
  loopsTransactionalId : Option String := none

/-- The fields of an inbound webhook body that the handler inspects,
each `none` when the corresponding path is absent.  `dataId` is
`body.data.id`, `pageObjectId` is `body.page.id`, `object` is
`body.object`, `dataPropertiesStatusName` is
`body.data.properties.Status.status.name` and `propertiesStatusName` is
`body.properties.Status.status.name`. -/
structure Body where
  pageId : Option String := none
  dataId : Option String := none
  id : Option String := none
  pageObjectId : Option String := none
  pageID : Option String := none
  object : Option String := none
  status : Option String := none
  dataPropertiesStatusName : Option String := none
  propertiesStatusName : Option String := none

/-- `extractPageId`: the chain of truthiness-guarded lookups, in source
order; the final branch returns `body.id` (possibly absent) when
`body.object === 'page'`. -/
def extractPageId (body : Body) : Option String :=
  if strTruthy body.pageId then body.pageId
  else if strTruthy body.dataId then body.dataId
  else if strTruthy body.id then body.id
  else if strTruthy body.pageObjectId then body.pageObjectId
  else if strTruthy body.pageID then body.pageID
  else if body.object = some "page" then body.id
  else none

/-- `extractStatus`: direct `status` field, then the two nested
`properties.Status.status.name` locations, each guarded by truthiness. -/
def extractStatus (body : Body) : Option String :=
  if strTruthy body.status then body.status
  else if strTruthy body.dataPropertiesStatusName then body.dataPropertiesStatusName
  else if strTruthy body.propertiesStatusName then body.propertiesStatusName
  else none

/-- The inbound HTTP request: method, the `x-webhook-secret` header and
the parsed JSON body. -/
structure Request where
  method : String
  xWebhookSecret : Option String := none
  body : Body

/-- Result record of `validateRequest`. -/
structure Validation where
  valid : Bool
  error : Option String := none
  pageId : Option String := none
  status : Option String := none
deriving DecidableEq, Repr

/-- `status || 'Ready'`: substitute the full-send trigger when the
extracted status is absent or falsy. -/
def orReady : Option String → String
  | some s => if s = "" then "Ready" else s
  | none => "Ready"

/-- `validateRequest`: POST only; byte-for-byte secret comparison when a
secret is configured; reject when no truthy page id is found; an absent
status defaults to `'Ready'`. -/
def validateRequest (cfg : ApiConfig) (req : Request) : Validation :=
  if req.method ≠ "POST" then
    { valid := false, error := some "Method not allowed. Use POST." }
  else if strTruthy cfg.webhookSecret ∧ req.xWebhookSecret ≠ cfg.webhookSecret then
    { valid := false, error := some "Invalid webhook secret" }
  else if ¬ strTruthy (extractPageId req.body) then
    { valid := false, error := some "Missing pageId." }
  else
    { valid := true, pageId := extractPageId req.body,
      status := some (orReady (extractStatus req.body)) }

/-- The newsletter page's `Audience` property as stored in Notion:
a multi-select, a (possibly empty) select, or absent. -/
inductive AudienceProp
  | multiSelect (names : List String)
  | select (name : Option String)
  | absent

/-- The Notion page data the handler reads: the persisted status and the
audience property. -/
structure PageData where
  statusName : Option String := none
  audience : AudienceProp := .absent

/-- One row of the contacts database: the `E-Mail` email property, the
`Name` title and the `Audience` multi-select tags. -/
structure ContactRow where
  email : Option String := none
  name : Option String := none
  audience : List String := []

/-- External-world state for one webhook invocation: the page's data,
failure flags for each network interaction the handler performs, the
contacts database and the per-call outcomes of the Loops API. -/
structure ApiEnv where
  page : PageData := {}
  audienceFetchThrows : Bool := false
  contactsQueryThrows : Bool := false
  contacts : List ContactRow := []
  contentFetchThrows : Bool := false
  contentErrorMsg : String := "fetch failed"
  sendOutcome : Nat → SendOutcome := fun _ => .ok

/-- `getNewsletterAudience`: multi-select names, a singleton for a
non-null select, `[]` otherwise; any thrown error is caught and also
yields `[]`. -/
def getNewsletterAudience (env : ApiEnv) : List String :=
  if env.audienceFetchThrows then []
  else
    match env.page.audience with
    | .multiSelect names => names
    | .select (some n) => [n]
    | .select none => []
    | .absent => []

/-- First word of a contact's full name: `fullName.split(' ')[0] || ''`. -/
def firstNameOf (name : Option String) : String :=
  ((name.getD "").splitOn " ").headD ""

/-- `getContactsByAudience`: the query returns the contacts whose
`Audience` tags contain at least one of the requested audiences (OR
filter); of those, only contacts with a truthy email are kept; a thrown
query error is caught and yields `[]`. -/
def getContactsByAudience (env : ApiEnv) (audiences : List String) : List LoopsContact :=
  if env.contactsQueryThrows then []
  else
    (env.contacts.filter
        (fun c => audiences.any (fun a => c.audience.contains a))).filterMap
      (fun c =>
        match c.email with
        | some e => if e = "" then none else some { email := e, firstName := firstNameOf c.name }
        | none => none)

/-- The single configured test recipient. -/
def testRecipient (cfg : ApiConfig) : LoopsContact :=
  { email := cfg.testEmail, firstName := cfg.testEmailName }

/-- `getRecipients`: test sends use the configured test address only;
full sends resolve the audience, falling back to the test recipient when
the newsletter has no audience or when no contact matches. -/
def getRecipients (cfg : ApiConfig) (env : ApiEnv) (isTestSend : Bool) : List LoopsContact :=
  if isTestSend then [testRecipient cfg]
  else
    let audiences := getNewsletterAudience env
    if audiences.length = 0 then [testRecipient cfg]
    else
      let contacts := getContactsByAudience env audiences
      if contacts.length = 0 then [testRecipient cfg]
      else contacts

/-- `api/newsletter-status.ts` `sendViaLoops`: a no-op `{0,0}` when the
Loops key or transactional id is not truthy, otherwise the serial send
loop.  The second component is the ghost trace of attempted emails. -/
def sendViaLoops (cfg : ApiConfig) (outcome : Nat → SendOutcome)
    (recipients : List LoopsContact) : SendTally × List String :=
  if ¬ strTruthy cfg.loopsApiKey ∨ ¬ strTruthy cfg.loopsTransactionalId then
    ({ sent := 0, failed := 0 }, [])
  else loopsSendLoop outcome recipients 0 {}

/-- `isAlreadySent`: the idempotency check — the persisted status equals
the terminal value `'Sent'`. -/
def isAlreadySent (env : ApiEnv) : Bool :=
  env.page.statusName = some "Sent"

/-- The handler's JSON response plus ghost observations: `attempts` is
the trace of delivery attempts that reached the Loops API and
`statusWrites` the list of status values written back to the store. -/
structure HandlerRes where
  httpStatus : Nat
  success : Option Bool := none
  message : Option String := none
  error : Option String := none
  sent : Option Nat := none
  failed : Option Nat := none
  attempts : List String := []
  statusWrites : List String := []
deriving DecidableEq, Repr

/-- The handler's `try` block after a trigger status was recognized:
idempotency check, content fetch (its exception is caught by the outer
handler and becomes a 500), recipient resolution, dispatch, success
response.  The handler never writes the status itself — a Notion
automation is expected to do that — so `statusWrites` is `[]` on every
path. -/
def handleTrigger (cfg : ApiConfig) (env : ApiEnv) (isTestSend : Bool) : HandlerRes :=
  if isAlreadySent env then
    { httpStatus := 200, success := some true, message := some "Newsletter already sent" }
  else if env.contentFetchThrows then
    { httpStatus := 500, success := some false, error := some env.contentErrorMsg }
  else
    let recipients := getRecipients cfg env isTestSend
    if recipients.length = 0 then
      { httpStatus := 200, success := some true, message := some "No recipients configured.",
        sent := some 0, failed := some 0 }
    else
      let result := sendViaLoops cfg env.sendOutcome recipients
      { httpStatus := 200, success := some true,
        message := some "Newsletter sent successfully",
        sent := some result.1.sent, failed := some result.1.failed,
        attempts := result.2 }

/-- `api/newsletter-status.ts` `handler`: CORS preflight, validation,
trigger classification (`'Test Sent'` / `'Ready'`), then the send
pipeline. -/
def handler (cfg : ApiConfig) (req : Request) (env : ApiEnv) : HandlerRes :=
  if req.method = "OPTIONS" then { httpStatus := 200 }
  else
    let v := validateRequest cfg req
    if ¬ v.valid then { httpStatus := 400, success := some false, error := v.error }
    else
      let status := v.status.getD ""
      let isTestSend := status = "Test Sent"
      let isFullSend := status = "Ready"
      if ¬ isTestSend ∧ ¬ isFullSend then
        { httpStatus := 200, success := some true,
          message := some ("Status \"" ++ status ++ "\" does not trigger send. Only \"Ready\" or \"Test Sent\" triggers send.") }
      else handleTrigger cfg env isTestSend

end StatusApi

namespace SendNewsletter

/-- The environment-variable configuration read by
`src/send-newsletter.ts`. -/
structure CliConfig where
  loopsApiKey : String := ""
  loopsTransactionalId : String := ""

/-- External-world state for one `sendSingleNewsletter` call: the page's
persisted status and failure flags for each store interaction, plus the
per-call Loops outcomes. -/
structure CliEnv where
  pageStatus : Option String := none
  retrieveThrows : Bool := false
  blocksFetchThrows : Bool := false
  markAsSentThrows : Bool := false
  sendOutcome : Nat → SendOutcome := fun _ => .ok

/-- Result of `sendSingleNewsletter` plus ghost observations (attempted
emails and status values written). -/
structure SingleResult where
  success : Bool
  sent : Nat := 0
  failed : Nat := 0
  error : Option String := none
  attempts : List String := []
  statusWrites : List String := []
deriving DecidableEq, Repr

/-- `getEmailRecipients`: the hardcoded recipient list. -/
def getEmailRecipients : List LoopsContact :=
  [{ email := "olivier@lilee.ai", firstName := "Olivier" }]

/-- `src/send-newsletter.ts` `sendViaLoops`: a no-op `{0,0}` when the
key or transactional id is missing or still the placeholder value,
otherwise the serial send loop (ghost trace as second component). -/
def sendViaLoops (cfg : CliConfig) (outcome : Nat → SendOutcome)
    (recipients : List LoopsContact) : SendTally × List String :=
  if cfg.loopsApiKey = "" ∨ cfg.loopsApiKey = "your-loops-api-key" then
    ({ sent := 0, failed := 0 }, [])
  else if cfg.loopsTransactionalId = "" ∨ cfg.loopsTransactionalId = "your-transactional-email-id" then
    ({ sent := 0, failed := 0 }, [])
  else loopsSendLoop outcome recipients 0 {}

/-- `src/send-newsletter.ts` `sendSingleNewsletter`: verify the status
(`'Sent'` → already-sent short circuit, anything other than `'Ready'` →
failure), fetch blocks, dispatch, then `markAsSent`; every exception is
caught and reported as a failed result with the status not advanced. -/
def sendSingleNewsletter (cfg : CliConfig) (env : CliEnv) : SingleResult :=
  if env.retrieveThrows then
    { success := false, error := some "retrieve failed" }
  else if env.pageStatus = some "Sent" then
    { success := true }
  else if env.pageStatus ≠ some "Ready" then
    { success := false, error := some "Status is not \"Ready\"" }
  else if env.blocksFetchThrows then
    { success := false, error := some "blocks fetch failed" }
  else
    let recipients := getEmailRecipients
    if recipients.length = 0 then
      if env.markAsSentThrows then
        { success := false, error := some "status update failed" }
      else
        { success := true, statusWrites := ["Sent"] }
    else
      let res := sendViaLoops cfg env.sendOutcome recipients
      if env.markAsSentThrows then
        { success := false, error := some "status update failed", attempts := res.2 }
      else
        { success := true, sent := res.1.sent, failed := res.1.failed,
          attempts := res.2, statusWrites := ["Sent"] }

end SendNewsletter

/-- A configuration with the Loops API configured. -/
def sampleLoopsCfg : StatusApi.ApiConfig :=
  { loopsApiKey := some "k", loopsTransactionalId := some "t" }

/-- A webhook request carrying a page id and the full-send trigger. -/
def readyReq : StatusApi.Request :=
  { method := "POST", body := { pageId := some "page-1", status := some "Ready" } }

/-- A webhook request whose body carries only a root-level `id` and no
status in any recognized location. -/
def noStatusReq : StatusApi.Request :=
  { method := "POST", body := { id := some "page-1" } }

/-- A store state whose newsletter is already in the terminal status. -/
def sentEnv : StatusApi.ApiEnv := { page := { statusName := some "Sent" } }

/-- A store state with a draft newsletter and all interactions healthy. -/
def draftEnv : StatusApi.ApiEnv := { page := { statusName := some "Draft" } }

/-- A store state with a draft newsletter whose content fetch throws. -/
def fetchFailEnv : StatusApi.ApiEnv :=
  { page := { statusName := some "Draft" }, contentFetchThrows := true }

/-- Outcome environment where exactly the second call throws. -/
def secondThrowsOutcome : Nat → SendOutcome :=
  fun i => if i = 1 then SendOutcome.thrown "network down" else SendOutcome.ok

/-- Three concrete recipients. -/
def threeRecipients : List LoopsContact :=
  [⟨"a@example.com", "A"⟩, ⟨"b@example.com", "B"⟩, ⟨"c@example.com", "C"⟩]

/-- A CLI environment with a `'Ready'` page and all interactions healthy. -/
def readyCliEnv : SendNewsletter.CliEnv := { pageStatus := some "Ready" }

namespace HtmlGen

/-- A Notion content block as consumed by `generateContentHtml`: the
`type` tag plus exactly the payload fields the generator reads.  Image
and video blocks carry both the `file.url` and `external.url` locations
(the source takes the first truthy one); `other` stands for any block
type the generator's switch has no case for. -/
inductive Block
  | heading_1 (rich_text : List RichItem)
  | heading_2 (rich_text : List RichItem)
  | heading_3 (rich_text : List RichItem)
  | paragraph (rich_text : List RichItem)
  | bulleted_list_item (rich_text : List RichItem)
  | numbered_list_item (rich_text : List RichItem)
  | quote (rich_text : List RichItem)
  | divider
  | callout (rich_text : List RichItem)
  | image (fileUrl : Option String) (externalUrl : Option String) (caption : List RichItem)
  | video (fileUrl : Option String) (externalUrl : Option String)
  | embed (url : Option String)
  | bookmark (url : Option String)
  | other (tname : String)
deriving DecidableEq, Repr

/-- `DEFAULT_SKIP_SECTIONS`. -/
def DEFAULT_SKIP_SECTIONS : List String := ["Collateral Checklist", "Review Questions"]

/-- `VIDEO_DOMAINS`. -/
def VIDEO_DOMAINS : List String :=
  ["loom.com", "screen.studio", "youtube.com", "youtu.be", "vimeo.com", "screencast"]

/-- `ContentGeneratorOptions` with the source's destructuring defaults;
the async `uploadImage` callback is modelled as a pure function whose
`none` result means the upload failed or returned null. -/
structure ContentGeneratorOptions where
  includeToc : Bool := true
  uploadImage : Option (String → String → Option String) := none
  pageId : String := ""
  skipSections : List String := DEFAULT_SKIP_SECTIONS

/-- Does `hay` contain `needle` as a contiguous substring (JavaScript
`String.prototype.includes`), over char lists. -/
def includesAux (needle : List Char) : List Char → Bool
  | [] => needle.isPrefixOf []
  | c :: rest => needle.isPrefixOf (c :: rest) || includesAux needle rest

/-- JavaScript `hay.includes(needle)`. -/
def strIncludes (hay needle : String) : Bool :=
  includesAux needle.toList hay.toList

/-- Lower-case every character (for the case-insensitive extension
regex). -/
def lowerStr (s : String) : String :=
  String.mk (s.toList.map Char.toLower)

/-- The embed-branch classifier
`/\.(gif|png|jpg|jpeg|webp)/i.test(url) || url.includes('giphy')`:
a case-insensitive dot-extension substring or a (case-sensitive)
`giphy` substring. -/
def embedIsImage (url : String) : Bool :=
  strIncludes (lowerStr url) ".gif" || strIncludes (lowerStr url) ".png" ||
  strIncludes (lowerStr url) ".jpg" || strIncludes (lowerStr url) ".jpeg" ||
  strIncludes (lowerStr url) ".webp" || strIncludes url "giphy"

/-- `detectVideoLink`: for a paragraph, the first run's truthy `href` or
else the joined plain text; for a bookmark, its url or `''`; the result
is returned when truthy and containing a known video domain. -/
def detectVideoLink (nextBlock : Option Block) : Option String :=
  match nextBlock with
  | none => none
  | some (.paragraph rt) =>
    let firstHref := rt.head?.bind (fun t => t.href)
    let url := if strTruthy firstHref then firstHref.getD "" else getPlainText rt
    if url ≠ "" ∧ VIDEO_DOMAINS.any (fun d => strIncludes url d) then some url else none
  | some (.bookmark u) =>
    let url := u.getD ""
    if url ≠ "" ∧ VIDEO_DOMAINS.any (fun d => strIncludes url d) then some url else none
  | some _ => none

/-- One `html +=` emission of the generator.  List-container tags are
tagged constructors so that tag balance is a statement about the
generator's emissions; everything else is a literal string chunk.  The
TOC's combined `"</ul>\n</div>\n"` emission is modelled as the close tag
followed by a string chunk. -/
inductive Chunk
  | ulOpen
  | ulClose
  | olOpen
  | olClose
  | str (s : String)
deriving DecidableEq, Repr

/-- The text of a chunk as it is appended to the html accumulator. -/
def Chunk.render : Chunk → String
  | .ulOpen => "<ul>\n"
  | .ulClose => "</ul>\n"
  | .olOpen => "<ol>\n"
  | .olClose => "</ol>\n"
  | .str s => s

/-- `closeOpenLists`: emit the close tag for whichever list is open. -/
def closeOpenLists (inBulletedList inNumberedList : Bool) : List Chunk :=
  (if inBulletedList then [Chunk.ulClose] else []) ++
  (if inNumberedList then [Chunk.olClose] else [])

/-- First pass of `generateContentHtml`: the h1 headings with nonempty
plain text, in document order (empty when `includeToc` is false). -/
def tocItems (includeToc : Bool) (blocks : List Block) : List String :=
  if includeToc then
    blocks.filterMap (fun b =>
      match b with
      | .heading_1 rt => if getPlainText rt = "" then none else some (getPlainText rt)
      | _ => none)
  else []

/-- The TOC emissions: a box listing the h1 headings 1-indexed, emitted
only when at least one item exists. -/
def tocChunks (items : List String) : List Chunk :=
  if items.length > 0 then
    [Chunk.str "<div class=\"toc-box\">\n", Chunk.str "<p>In This Issue</p>\n", Chunk.ulOpen] ++
    items.enum.map (fun p => Chunk.str ("<li>" ++ toString (p.1 + 1) ++ ". " ++ p.2 ++ "</li>\n")) ++
    [Chunk.ulClose, Chunk.str "</div>\n"]
  else []

/-- The chosen image url after the optional rehost: the callback runs
only when both it and a truthy `pageId` are present, and its result is
substituted only when truthy (any failure keeps the original url). -/
def rehostedUrl (opts : ContentGeneratorOptions) (url : String) : String :=
  match opts.uploadImage with
  | some f =>
    if opts.pageId ≠ "" then
      match f url opts.pageId with
      | some p => if p = "" then url else p
      | none => url
    else url
  | none => url

/-- The embed-case emission: nothing for a falsy url, an `<img>` for an
image-like url, an anchor otherwise. -/
def embedChunks : Option String → List Chunk
  | some url =>
    if url = "" then []
    else if embedIsImage url then
      [Chunk.str ("<img src=\"" ++ url ++ "\" alt=\"Embedded content\" style=\"max-width:100%;\">\n")]
    else [Chunk.str ("<p><a href=\"" ++ url ++ "\">View Content</a></p>\n")]
  | none => []

/-- The second (sequential render) pass of `generateContentHtml`, as the
list of emissions: two booleans of list state, close-before-non-list
blocks, stop at a `skipSections` h2, lazy list opening, the h3
trailing-colon label dispatch, and the image + following-video-link
lookahead that consumes the link block. -/
def renderLoop (opts : ContentGeneratorOptions) :
    List Block → Bool → Bool → List Chunk
  | [], inB, inN => closeOpenLists inB inN
  | b :: rest, inB, inN =>
    match b with
    | .heading_1 rt =>
      closeOpenLists inB inN ++ [Chunk.str ("<h1>" ++ getRichText rt ++ "</h1>\n")] ++
        renderLoop opts rest false false
    | .heading_2 rt =>
      if opts.skipSections.contains (getPlainText rt) then
        closeOpenLists inB inN
      else
        closeOpenLists inB inN ++ [Chunk.str ("<h2>" ++ getRichText rt ++ "</h2>\n")] ++
          renderLoop opts rest false false
    | .heading_3 rt =>
      closeOpenLists inB inN ++
        [Chunk.str (if (getPlainText rt).trim.endsWith ":" then
            "<h4>" ++ getRichText rt ++ "</h4>\n"
          else
            "<h3>" ++ getRichText rt ++ "</h3>\n")] ++
        renderLoop opts rest false false
    | .paragraph rt =>
      closeOpenLists inB inN ++
        (if getRichText rt = "" then [] else [Chunk.str ("<p>" ++ getRichText rt ++ "</p>\n")]) ++
        renderLoop opts rest false false
    | .bulleted_list_item rt =>
      if inB then
        [Chunk.str ("  <li>" ++ getRichText rt ++ "</li>\n")] ++ renderLoop opts rest true inN
      else
        (if inN then [Chunk.olClose] else []) ++
          [Chunk.ulOpen, Chunk.str ("  <li>" ++ getRichText rt ++ "</li>\n")] ++
          renderLoop opts rest true false
    | .numbered_list_item rt =>
      if inN then
        [Chunk.str ("  <li>" ++ getRichText rt ++ "</li>\n")] ++ renderLoop opts rest inB true
      else
        (if inB then [Chunk.ulClose] else []) ++
          [Chunk.olOpen, Chunk.str ("  <li>" ++ getRichText rt ++ "</li>\n")] ++
          renderLoop opts rest false true
    | .quote rt =>
      closeOpenLists inB inN ++
        [Chunk.str ("<blockquote>" ++ getRichText rt ++ "</blockquote>\n")] ++
        renderLoop opts rest false false
    | .divider =>
      closeOpenLists inB inN ++ [Chunk.str "<hr>\n"] ++ renderLoop opts rest false false
    | .callout rt =>
      closeOpenLists inB inN ++
        [Chunk.str ("<div class=\"callout\">" ++ getRichText rt ++ "</div>\n")] ++
        renderLoop opts rest false false
    | .image fileUrl externalUrl caption =>
      let raw := if strTruthy fileUrl then fileUrl else externalUrl
      if ¬ strTruthy raw then
        closeOpenLists inB inN ++ renderLoop opts rest false false
      else
        let url := rehostedUrl opts (raw.getD "")
        let cap := getPlainText caption
        match rest with
        | next :: rest' =>
          match detectVideoLink (some next) with
          | some vurl =>
            closeOpenLists inB inN ++
              [Chunk.str ("<a href=\"" ++ vurl ++ "\" target=\"_blank\" style=\"display:block;text-decoration:none;\">"),
               Chunk.str ("<img src=\"" ++ url ++ "\" alt=\"" ++ cap ++ "\" style=\"max-width:100%;\">"),
               Chunk.str "</a>\n",
               Chunk.str "<p class=\"video-caption\">Tap image to view video</p>\n"] ++
              renderLoop opts rest' false false
          | none =>
            closeOpenLists inB inN ++
              [Chunk.str ("<img src=\"" ++ url ++ "\" alt=\"" ++ cap ++ "\" style=\"max-width:100%;\">\n")] ++
              (if cap = "" then [] else [Chunk.str ("<p class=\"image-caption\">" ++ cap ++ "</p>\n")]) ++
              renderLoop opts (next :: rest') false false
        | [] =>
          closeOpenLists inB inN ++
            [Chunk.str ("<img src=\"" ++ url ++ "\" alt=\"" ++ cap ++ "\" style=\"max-width:100%;\">\n")] ++
            (if cap = "" then [] else [Chunk.str ("<p class=\"image-caption\">" ++ cap ++ "</p>\n")]) ++
            renderLoop opts [] false false
    | .video fileUrl externalUrl =>
      let url := if strTruthy fileUrl then fileUrl else externalUrl
      closeOpenLists inB inN ++
        (if strTruthy url then
          [Chunk.str ("<p><a href=\"" ++ url.getD "" ++ "\">Watch Video</a></p>\n")]
        else []) ++
        renderLoop opts rest false false
    | .embed u =>
      closeOpenLists inB inN ++ embedChunks u ++ renderLoop opts rest false false
    | .bookmark _ =>
      closeOpenLists inB inN ++ renderLoop opts rest false false
    | .other _ =>
      closeOpenLists inB inN ++ renderLoop opts rest false false

/-- `generateContentHtml` as its ordered list of emissions: the TOC pass
over the whole sequence, then the render pass from empty list state
(whose `[]` case also closes any list still open at the end). -/
def generateContentChunks (blocks : List Block) (opts : ContentGeneratorOptions) : List Chunk :=
  tocChunks (tocItems opts.includeToc blocks) ++ renderLoop opts blocks false false

/-- `src/lib/html-generator.ts` `generateContentHtml`: the concatenation
of the emissions. -/
def generateContentHtml (blocks : List Block) (opts : ContentGeneratorOptions) : String :=
  String.join ((generateContentChunks blocks opts).map Chunk.render)

end HtmlGen

/-- A plain (unannotated) rich-text item. -/
def plainItem (s : String) : RichItem := { plain_text := s }

/-- The concrete scenario blocks before the skip heading: H2('Feature
A'), Bullet('x'), Bullet('y'). -/
def featureABlocks : List HtmlGen.Block :=
  [HtmlGen.Block.heading_2 [plainItem "Feature A"],
   HtmlGen.Block.bulleted_list_item [plainItem "x"],
   HtmlGen.Block.bulleted_list_item [plainItem "y"]]

/-- The rich text of the matched skip heading. -/
def ccRt : List RichItem := [plainItem "Collateral Checklist"]

/-- The blocks after the skip heading in the concrete scenario. -/
def ignoredBlocks : List HtmlGen.Block :=
  [HtmlGen.Block.bulleted_list_item [plainItem "ignored"]]

/-- Blocks where a level-1 heading follows the matched skip heading. -/
def tocLeakBlocks : List HtmlGen.Block :=
  [HtmlGen.Block.heading_2 [plainItem "Collateral Checklist"],
   HtmlGen.Block.heading_1 [plainItem "Secret"]]

/-- A block contributes nothing to the table of contents: it is not a
level-1 heading with nonempty plain text. -/
def noTocHeading (b : HtmlGen.Block) : Bool :=
  match b with
  | .heading_1 rt => HtmlGen.getPlainText rt = ""
  | _ => true

/-- The backtick character (code-span delimiter). -/
def backtickChar : Char := Char.ofNat 96

/-- One rich-text run on the markdown side of the pipeline: the
`text.content` payload, the annotation flags and the optional
`text.link.url` / `href`.  Text is carried as `List Char` because the
markdown scanners are character-level. -/
structure InlineRun where
  content : List Char
  bold : Bool := false
  italic : Bool := false
  code : Bool := false
  strikethrough : Bool := false
  link : Option (List Char) := none
deriving DecidableEq, Repr

/-- JavaScript `markdown.split('\n')`: split on newlines, keeping empty
pieces (splitting the empty string yields `[""]`). -/
def splitLines : List Char → List (List Char)
  | [] => [[]]
  | c :: rest =>
    if c = '\n' then [] :: splitLines rest
    else
      match splitLines rest with
      | l :: ls => (c :: l) :: ls
      | [] => [[c]]

/-- A whitespace character as stripped by JavaScript `trim` (the ASCII
subset; the inputs here are ASCII markdown). -/
def isJsSpace (c : Char) : Bool :=
  c = ' ' ∨ c = '\t' ∨ c = '\n' ∨ c = '\r' ∨ c = '\x0b' ∨ c = '\x0c'

/-- JavaScript `line.trim()`. -/
def trimChars (l : List Char) : List Char :=
  ((l.dropWhile isJsSpace).reverse.dropWhile isJsSpace).reverse

/-- Lazy `(.+?)` search for a two-character closing delimiter `d1 d2`:
the shortest (possibly empty) newline-free extension of the content
followed by the closer; returns the extension and the text after the
closer. -/
def lazyClose2 (d1 d2 : Char) : List Char → Option (List Char × List Char)
  | a :: b :: r =>
    if a = d1 ∧ b = d2 then some ([], r)
    else if a = '\n' then none
    else (lazyClose2 d1 d2 (b :: r)).map (fun p => (a :: p.1, p.2))
  | _ => none

/-- Lazy `(.+?)` search for a one-character closing delimiter. -/
def lazyClose1 (d : Char) : List Char → Option (List Char × List Char)
  | a :: r =>
    if a = d then some ([], r)
    else if a = '\n' then none
    else (lazyClose1 d r).map (fun p => (a :: p.1, p.2))
  | [] => none

/-- The `\*\*(.+?)\*\*` alternative at the current position: two stars,
at least one non-newline content character, then the lazily-nearest
closing two stars.  Shared by both inline-markdown scanners (their bold
alternatives are identical). -/
def mdTryBold : List Char → Option (List Char × List Char)
  | c1 :: c2 :: a :: r =>
    if c1 = '*' ∧ c2 = '*' ∧ ¬ a = '\n' then
      (lazyClose2 '*' '*' r).map (fun p => (a :: p.1, p.2))
    else none
  | _ => none

namespace NotionTools

/-- `src/tools/notion.ts` `richTextToMarkdown`, one run: successive
wrapping — bold, italic, strikethrough, code, then (if the href is
truthy) the link syntax. -/
def runToMarkdown (t : InlineRun) : List Char :=
  let c := t.content
  let c := if t.bold then '*' :: '*' :: c ++ ['*', '*'] else c
  let c := if t.italic then '*' :: c ++ ['*'] else c
  let c := if t.strikethrough then '~' :: '~' :: c ++ ['~', '~'] else c
  let c := if t.code then backtickChar :: c ++ [backtickChar] else c
  match t.link with
  | some url => if url = [] then c else '[' :: c ++ (']' :: '(' :: url) ++ [')']
  | none => c

/-- `richTextToMarkdown`: map the runs and join. -/
def richTextToMarkdown (richText : List InlineRun) : List Char :=
  (richText.map runToMarkdown).join

end NotionTools

namespace Review

/-- `(.+?)` then `\)` for the link url: at least one non-newline
character, lazily closed by the first `)`. -/
def urlClose : List Char → Option (List Char × List Char)
  | a :: r =>
    if a = '\n' then none
    else if r.head? = some ')' then some ([a], r.tail)
    else (urlClose r).map (fun p => (a :: p.1, p.2))
  | [] => none

/-- Lazy-with-backtracking search for the `](`-and-url part of the
`\[(.+?)\]\((.+?)\)` alternative: the shortest extension of the link
text such that `](`, a lazily-closed url and `)` follow; a `]` at which
the rest fails to match is swallowed into the text, as the regex engine
would backtrack. -/
def linkClose : List Char → Option (List Char × List Char × List Char)
  | a :: r =>
    if a = ']' ∧ r.head? = some '(' then
      match urlClose r.tail with
      | some (u, rest) => some ([], u, rest)
      | none => (linkClose r).map (fun p => (a :: p.1, p.2.1, p.2.2))
    else if a = '\n' then none
    else (linkClose r).map (fun p => (a :: p.1, p.2.1, p.2.2))
  | [] => none

/-- The `\*(.+?)\*` alternative at the current position. -/
def tryItalic : List Char → Option (List Char × List Char)
  | c1 :: a :: r =>
    if c1 = '*' ∧ ¬ a = '\n' then (lazyClose1 '*' r).map (fun p => (a :: p.1, p.2))
    else none
  | _ => none

/-- The <code>`(.+?)`</code> alternative at the current position. -/
def tryCode : List Char → Option (List Char × List Char)
  | b :: a :: r =>
    if b = backtickChar ∧ ¬ a = '\n' then
      (lazyClose1 backtickChar r).map (fun p => (a :: p.1, p.2))
    else none
  | _ => none

/-- The `\[(.+?)\]\((.+?)\)` alternative at the current position. -/
def tryLink : List Char → Option (List Char × List Char × List Char)
  | c1 :: a :: r =>
    if c1 = '[' ∧ ¬ a = '\n' then (linkClose r).map (fun p => (a :: p.1, p.2.1, p.2.2))
    else none
  | _ => none

/-- A successful match of the alternation in the pattern
`/(\*\*(.+?)\*\*|\*(.+?)\*|`+"`"+`(.+?)`+"`"+`|\[(.+?)\]\((.+?)\))/g`,
recording which alternative matched and its groups. -/
inductive Tok
  | bold (content : List Char)
  | italic (content : List Char)
  | code (content : List Char)
  | link (text url : List Char)
deriving DecidableEq, Repr

/-- The full matched text (`match[0]`) of a token. -/
def Tok.full : Tok → List Char
  | .bold c => '*' :: '*' :: c ++ ['*', '*']
  | .italic c => '*' :: c ++ ['*']
  | .code c => backtickChar :: c ++ [backtickChar]
  | .link t u => '[' :: t ++ (']' :: '(' :: u) ++ [')']

/-- Try the four alternatives, in the pattern's order, at the current
position. -/
def tryTok (s : List Char) : Option (Tok × List Char) :=
  match mdTryBold s with
  | some (c, r) => some (.bold c, r)
  | none =>
    match tryItalic s with
    | some (c, r) => some (.italic c, r)
    | none =>
      match tryCode s with
      | some (c, r) => some (.code c, r)
      | none =>
        match tryLink s with
        | some (t, u, r) => some (.link t u, r)
        | none => none

/-- `pattern.exec`: the leftmost match — scan positions left to right,
returning the plain text before the match, the token and the rest. -/
def findTok : List Char → Option (List Char × Tok × List Char)
  | [] => none
  | c :: t =>
    match tryTok (c :: t) with
    | some (k, rest) => some ([], k, rest)
    | none => (findTok t).map (fun p => (c :: p.1, p.2.1, p.2.2))

/-- The run pushed for a match, following the source's `fullMatch`
string tests (`startsWith('**') && endsWith('**')` → bold with
`match[2]`, then the italic, code and link branches).  In the degenerate
overlaps where a branch fires for a different alternative the
corresponding group is undefined in JavaScript; that corner is modelled
as empty content (it is outside every theorem's domain here). -/
def classifyTok (k : Tok) : Option InlineRun :=
  let full := k.full
  if ['*', '*'].isPrefixOf full ∧ ['*', '*'].isSuffixOf full then
    match k with
    | .bold c => some { content := c, bold := true }
    | _ => some { content := [], bold := true }
  else if ['*'].isPrefixOf full ∧ ['*'].isSuffixOf full ∧ ¬ ['*', '*'].isPrefixOf full then
    match k with
    | .italic c => some { content := c, italic := true }
    | _ => some { content := [], italic := true }
  else if [backtickChar].isPrefixOf full ∧ [backtickChar].isSuffixOf full then
    match k with
    | .code c => some { content := c, code := true }
    | _ => some { content := [], code := true }
  else if ['['].isPrefixOf full then
    match k with
    | .link t u => some { content := t, link := some u }
    | _ => some { content := [], link := some [] }
  else none

/-- The `while ((match = pattern.exec(text)))` loop: plain text between
matches becomes unannotated runs, each match contributes its classified
run.  Fuel-indexed (each match consumes at least three characters, so
`s.length` fuel suffices; the fuel-out fallback coincides with the
no-match case). -/
def scanRunsFuel : Nat → List Char → List InlineRun
  | 0, s => if s = [] then [] else [{ content := s }]
  | fuel + 1, s =>
    match findTok s with
    | none => if s = [] then [] else [{ content := s }]
    | some (pre, k, rest) =>
      (if pre = [] then [] else [{ content := pre }]) ++
        (match classifyTok k with
          | some run => [run]
          | none => []) ++
        scanRunsFuel fuel rest

/-- The scan of a whole text. -/
def scanRuns (s : List Char) : List InlineRun :=
  scanRunsFuel s.length s

/-- `parseInlineMarkdown` (review pipeline): the scan, with the
whole text pushed as one plain run when nothing was accumulated. -/
def parseInlineMarkdown (text : List Char) : List InlineRun :=
  let rs := scanRuns text
  if rs = [] then [{ content := text }] else rs

end Review

namespace Draft

/-- The `\*([^*]+)\*` alternative: one star, a maximal nonempty run of
non-star characters, a closing star. -/
def tryItalic : List Char → Option (List Char × List Char)
  | '*' :: t =>
    let content := t.takeWhile (fun c => ¬ c = '*')
    if content = [] then none
    else
      match t.dropWhile (fun c => ¬ c = '*') with
      | '*' :: r => some (content, r)
      | _ => none
  | _ => none

/-- The `\[([^\]]+)\]\(([^)]+)\)` alternative. -/
def tryLink : List Char → Option (List Char × List Char × List Char)
  | '[' :: t =>
    let txt := t.takeWhile (fun c => ¬ c = ']')
    if txt = [] then none
    else
      match t.dropWhile (fun c => ¬ c = ']') with
      | ']' :: '(' :: t2 =>
        let url := t2.takeWhile (fun c => ¬ c = ')')
        if url = [] then none
        else
          match t2.dropWhile (fun c => ¬ c = ')') with
          | ')' :: r => some (txt, url, r)
          | _ => none
      | _ => none
  | _ => none

/-- The `!\[([^\]]*)\]\(([^)]+)\)` alternative (the alt text may be
empty). -/
def tryImage : List Char → Option (List Char × List Char × List Char)
  | '!' :: '[' :: t =>
    (match t.dropWhile (fun c => ¬ c = ']') with
      | ']' :: '(' :: t2 =>
        let url := t2.takeWhile (fun c => ¬ c = ')')
        if url = [] then none
        else
          match t2.dropWhile (fun c => ¬ c = ')') with
          | ')' :: r => some (t.takeWhile (fun c => ¬ c = ']'), url, r)
          | _ => none
      | _ => none)
  | _ => none

/-- A successful match of the draft pattern
`/(\*\*(.+?)\*\*|\*([^*]+)\*|\[([^\]]+)\]\(([^)]+)\)|!\[([^\]]*)\]\(([^)]+)\))/g`. -/
inductive Tok
  | bold (content : List Char)
  | italic (content : List Char)
  | link (text url : List Char)
  | image (alt url : List Char)
deriving DecidableEq, Repr

/-- Try the four draft alternatives in order at the current position. -/
def tryTok (s : List Char) : Option (Tok × List Char) :=
  match mdTryBold s with
  | some (c, r) => some (.bold c, r)
  | none =>
    match tryItalic s with
    | some (c, r) => some (.italic c, r)
    | none =>
      match tryLink s with
      | some (t, u, r) => some (.link t u, r)
      | none =>
        match tryImage s with
        | some (a, u, r) => some (.image a u, r)
        | none => none

/-- Leftmost match of the draft pattern. -/
def findTok : List Char → Option (List Char × Tok × List Char)
  | [] => none
  | c :: t =>
    match tryTok (c :: t) with
    | some (k, rest) => some ([], k, rest)
    | none => (findTok t).map (fun p => (c :: p.1, p.2.1, p.2.2))

/-- The run pushed per match: the draft parser classifies by which
group is present; an empty image alt becomes the placeholder `Image`. -/
def tokRun : Tok → InlineRun
  | .bold c => { content := c, bold := true }
  | .italic c => { content := c, italic := true }
  | .link t u => { content := t, link := some u }
  | .image a u => { content := (if a = [] then "Image".toList else a), link := some u }

/-- The draft scanner loop (fuel-indexed like the review one). -/
def scanRunsFuel : Nat → List Char → List InlineRun
  | 0, s => if s = [] then [] else [{ content := s }]
  | fuel + 1, s =>
    match findTok s with
    | none => if s = [] then [] else [{ content := s }]
    | some (pre, k, rest) =>
      (if pre = [] then [] else [{ content := pre }]) ++ [tokRun k] ++
        scanRunsFuel fuel rest

/-- `src/newsletter/draft.ts` `parseInlineMarkdown`. -/
def parseInlineMarkdown (text : List Char) : List InlineRun :=
  let rs := scanRunsFuel text.length text
  if rs = [] then [{ content := text }] else rs

end Draft

/-- The output block model shared by the three markdown-to-block
converters: the block `type` plus its rich text (or payload). -/
inductive MdBlock
  | heading_1 (rich : List InlineRun)
  | heading_2 (rich : List InlineRun)
  | heading_3 (rich : List InlineRun)
  | paragraph (rich : List InlineRun)
  | bulleted_list_item (rich : List InlineRun)
  | numbered_list_item (rich : List InlineRun)
  | quote (rich : List InlineRun)
  | divider
  | callout (icon : String) (rich : List InlineRun)
  | image (externalUrl : List Char)
deriving DecidableEq, Repr

/-- A single plain rich-text item (`[{ type: 'text', text: { content } }]`). -/
def plainRich (c : List Char) : List InlineRun := [{ content := c }]

namespace NotionTools

/-- The per-line classification of `src/tools/notion.ts`
`parseMarkdownToBlocks`: heading levels 1-3 by prefix, `- ` bullets,
`> ` quotes, a line that is exactly `---` (untrimmed) as divider,
anything else a paragraph; the line's remaining text is kept as plain
content (this converter does no inline parsing). -/
def lineToBlock (line : List Char) : MdBlock :=
  if ("# ".toList).isPrefixOf line then .heading_1 (plainRich (line.drop 2))
  else if ("## ".toList).isPrefixOf line then .heading_2 (plainRich (line.drop 3))
  else if ("### ".toList).isPrefixOf line then .heading_3 (plainRich (line.drop 4))
  else if ("- ".toList).isPrefixOf line then .bulleted_list_item (plainRich (line.drop 2))
  else if ("> ".toList).isPrefixOf line then .quote (plainRich (line.drop 2))
  else if line = "---".toList then .divider
  else .paragraph (plainRich line)

/-- The `for (const line of lines)` loop: blank lines (`!line.trim()`)
are skipped, every other line pushes exactly one block. -/
def parseMarkdownToBlocksGo : List (List Char) → List MdBlock
  | [] => []
  | line :: rest =>
    if trimChars line = [] then parseMarkdownToBlocksGo rest
    else lineToBlock line :: parseMarkdownToBlocksGo rest

/-- `src/tools/notion.ts` `parseMarkdownToBlocks`. -/
def parseMarkdownToBlocks (markdown : List Char) : List MdBlock :=
  parseMarkdownToBlocksGo (splitLines markdown)

end NotionTools

namespace Review

/-- `/^\d+\.\s/` with its removal: leading digits, a dot and one
whitespace character; returns the line with that prefix removed. -/
def numberedMatch (l : List Char) : Option (List Char) :=
  let ds := l.takeWhile Char.isDigit
  if ds = [] then none
  else
    match l.drop ds.length with
    | '.' :: c :: r => if isJsSpace c then some r else none
    | _ => none

/-- The per-line classification of the review pipeline's
`updatePageContent` markdown-to-block conversion (every branch pushes
exactly one block; the line content goes through `parseInlineMarkdown`). -/
def lineToBlock (line : List Char) : MdBlock :=
  if ("#### ".toList).isPrefixOf line then .heading_3 (parseInlineMarkdown (line.drop 5))
  else if ("### ".toList).isPrefixOf line then .heading_3 (parseInlineMarkdown (line.drop 4))
  else if ("## ".toList).isPrefixOf line then .heading_2 (parseInlineMarkdown (line.drop 3))
  else if ("# ".toList).isPrefixOf line then .heading_1 (parseInlineMarkdown (line.drop 2))
  else if ("- ".toList).isPrefixOf line ∨ ("* ".toList).isPrefixOf line then
    .bulleted_list_item (parseInlineMarkdown (line.drop 2))
  else
    match numberedMatch line with
    | some r => .numbered_list_item (parseInlineMarkdown r)
    | none =>
      if ("> ".toList).isPrefixOf line then .quote (parseInlineMarkdown (line.drop 2))
      else if trimChars line = "---".toList then .divider
      else .paragraph (parseInlineMarkdown line)

/-- The line loop of `updatePageContent` (blank lines skipped). -/
def updatePageContentBlocksGo : List (List Char) → List MdBlock
  | [] => []
  | line :: rest =>
    if trimChars line = [] then updatePageContentBlocksGo rest
    else lineToBlock line :: updatePageContentBlocksGo rest

/-- The block-building part of the review pipeline's
`updatePageContent` (the store clearing/appending around it is outside
this embedding). -/
def updatePageContentBlocks (markdown : List Char) : List MdBlock :=
  updatePageContentBlocksGo (splitLines markdown)

end Review

namespace Draft

/-- `/^!\[([^\]]*)\]\(([^)]+)\)$/` on the trimmed line: an anchored
standalone image; returns (alt, url). -/
def imgLineMatch (l : List Char) : Option (List Char × List Char) :=
  match l with
  | '!' :: '[' :: t =>
    (match t.dropWhile (fun c => ¬ c = ']') with
      | ']' :: '(' :: t2 =>
        let url := t2.takeWhile (fun c => ¬ c = ')')
        if url = [] then none
        else
          match t2.dropWhile (fun c => ¬ c = ')') with
          | [')'] => some (t.takeWhile (fun c => ¬ c = ']'), url)
          | _ => none
      | _ => none)
  | _ => none

/-- `/^<h4>(.+?)<\/h4>$/` on the raw line: anchored at both ends the
decomposition is unique — the tags as affixes with at least one middle
character (lines contain no newline, so the `.` restriction is moot). -/
def h4LineMatch (l : List Char) : Option (List Char) :=
  if ("<h4>".toList).isPrefixOf l ∧ ("</h4>".toList).isSuffixOf l ∧ 10 ≤ l.length then
    some ((l.drop 4).take (l.length - 9))
  else none

/-- The non-table per-line classification of
`src/newsletter/draft.ts` `convertMarkdownToBlocks` for a line that is
not blank and is neither a standalone image nor an `<h4>` literal. -/
def lineToBlock (line : List Char) : MdBlock :=
  if ("#### ".toList).isPrefixOf line then .heading_3 (parseInlineMarkdown (line.drop 5))
  else if ("### ".toList).isPrefixOf line then .heading_3 (parseInlineMarkdown (line.drop 4))
  else if ("## ".toList).isPrefixOf line then .heading_2 (parseInlineMarkdown (line.drop 3))
  else if ("# ".toList).isPrefixOf line then .heading_1 (parseInlineMarkdown (line.drop 2))
  else if ("- ".toList).isPrefixOf line ∨ ("* ".toList).isPrefixOf line then
    .bulleted_list_item (parseInlineMarkdown (line.drop 2))
  else if ("> ".toList).isPrefixOf line then .quote (parseInlineMarkdown (line.drop 2))
  else if trimChars line = "---".toList then .divider
  else .paragraph (parseInlineMarkdown line)

/-- The placeholder block pushed for a buffered HTML table. -/
def tableCallout : MdBlock :=
  .callout "📊" [{ content := "Roadmap table - renders in email preview".toList }]

/-- The line loop of `convertMarkdownToBlocks`, carrying the
`htmlBuffer`/`inHtmlBlock` table state: lines from `<table` to the line
containing `</table>` are buffered and emit a single placeholder
callout; blank lines are skipped; standalone image lines emit an image
block only for http(s) urls (others emit nothing); `<h4>` literal lines
become a level-3 heading with plain content. -/
def convertGo : List (List Char) → List Char → Bool → List MdBlock
  | [], _, _ => []
  | line :: rest, buf, inHtml =>
    if ("<table".toList).isPrefixOf (trimChars line) ∨ inHtml = true then
      (if HtmlGen.includesAux ("</table>".toList) line then
        tableCallout :: convertGo rest [] false
      else convertGo rest (buf ++ line ++ ['\n']) true)
    else if trimChars line = [] then convertGo rest buf inHtml
    else
      match imgLineMatch (trimChars line) with
      | some (_, url) =>
        if ("http".toList).isPrefixOf url then MdBlock.image url :: convertGo rest buf inHtml
        else convertGo rest buf inHtml
      | none =>
        match h4LineMatch line with
        | some content => MdBlock.heading_3 (plainRich content) :: convertGo rest buf inHtml
        | none => lineToBlock line :: convertGo rest buf inHtml

/-- `src/newsletter/draft.ts` `convertMarkdownToBlocks`. -/
def convertMarkdownToBlocks (markdown : List Char) : List MdBlock :=
  convertGo (splitLines markdown) [] false

end Draft

/-- A two-line HTML table, whose lines are collapsed into a single
placeholder block by the draft converter. -/
def tableMd : List Char := "<table>\n</table>".toList

/-- A standalone image line with a non-http url (dropped without a block
by the draft converter). -/
def notionImgMd : List Char := "![a](notion://x)".toList

/-- A character with a role in the inline-markdown syntax (delimiters
and newline). -/
def mdDelim (c : Char) : Bool :=
  c = '*' ∨ c = backtickChar ∨ c = '[' ∨ c = ']' ∨ c = '(' ∨ c = ')' ∨ c = '\n'

/-- A markdown-safe character. -/
def cleanChar (c : Char) : Bool := ¬ mdDelim c

/-- Nonempty text free of markdown delimiters and newlines. -/
def cleanChars (l : List Char) : Bool := ¬ l = [] ∧ l.all cleanChar

/-- A run with no annotation at all (rendered verbatim). -/
def plainRun (t : InlineRun) : Bool :=
  ¬ t.bold ∧ ¬ t.italic ∧ ¬ t.code ∧ ¬ t.strikethrough ∧ t.link = none

/-- Number of annotations carried by a run. -/
def annotCount (t : InlineRun) : Nat :=
  (if t.bold then 1 else 0) + (if t.italic then 1 else 0) +
    (if t.code then 1 else 0) + (if t.link = none then 0 else 1)

/-- A run in the supported round-trip subset: markdown-safe nonempty
content, no strikethrough, at most one of bold/italic/code/link, and a
markdown-safe nonempty url when a link is present. -/
def wfRun (t : InlineRun) : Bool :=
  cleanChars t.content && !t.strikethrough && decide (annotCount t ≤ 1) &&
    (match t.link with
      | some u => cleanChars u
      | none => true)

/-- A run sequence in the supported round-trip subset: every run
wellformed and no two consecutive unannotated runs (those would be
merged by any re-parse). -/
def wfRuns : List InlineRun → Bool
  | [] => true
  | [t] => wfRun t
  | t :: t' :: rest => wfRun t ∧ ¬ (plainRun t ∧ plainRun t') ∧ wfRuns (t' :: rest)

/-- Two adjacent unannotated runs (their rendering re-parses as one). -/
def twoPlainRuns : List InlineRun :=
  [{ content := "a".toList }, { content := "b".toList }]

/-- The spec's concrete round-trip scenario: bold('Reduces TAT'),
plain(' by '), italic('40%'). -/
def demoRuns : List InlineRun :=
  [{ content := "Reduces TAT".toList, bold := true },
   { content := " by ".toList },
   { content := "40%".toList, italic := true }]

/-- C4 -- counterexample: a run that is both bold and italic renders with
the `<em>` wrapper outside the `<strong>` wrapper, so the nesting order
claimed by the spec (link > underline > bold > italic > code, which would
put `<strong>` outside `<em>`) is false. -/
theorem c4_nesting_counterexample :
    HtmlGen.getRichText [boldItalicRun] = "<em><strong>x</strong></em>" ∧
    HtmlGen.specNestedRender boldItalicRun = "<strong><em>x</em></strong>" ∧
    HtmlGen.getRichText [boldItalicRun] ≠ HtmlGen.specNestedRender boldItalicRun := by
  refine ⟨rfl, rfl, ?_⟩
  decide

/-- C4 -- amended: for every inline run the renderer composes the
annotation wrappers in the fixed order link > code > italic > bold >
underline (outermost first); in particular a run with both bold and an
href renders as `<a><strong>...</strong></a>` with the anchor outermost. -/
theorem c4_nesting_amended :
    (∀ t : RichItem, HtmlGen.getRichText [t] = HtmlGen.nestedRender t) ∧
    HtmlGen.getRichText [boldLinkRun] = "<a href=\"https://x\"><strong>hi</strong></a>" := by
  constructor
  · intro t
    show String.join [HtmlGen.richItemHtml t] = _
    simp [String.join, HtmlGen.richItemHtml, HtmlGen.nestedRender,
      HtmlGen.wrapTag, HtmlGen.wrapHref]
  · rfl

/-- Each ok-outcome count is bounded by the number of calls. -/
theorem okCount_le (outcome : Nat → SendOutcome) (start len : Nat) :
    okCount outcome start len ≤ len := by
  induction len generalizing start with
  | zero => simp [okCount]
  | succ n ih =>
    have h := ih (start + 1)
    simp only [okCount]
    split <;> omega

/-- The serial loop attempts every recipient in order and tallies exactly
the ok outcomes as sent and all other outcomes as failed. -/
theorem loopsSendLoop_spec (outcome : Nat → SendOutcome) (rs : List LoopsContact) :
    ∀ (i : Nat) (t : SendTally),
      (loopsSendLoop outcome rs i t).2 = rs.map (fun r => r.email) ∧
      (loopsSendLoop outcome rs i t).1.sent = t.sent + okCount outcome i rs.length ∧
      (loopsSendLoop outcome rs i t).1.failed =
        t.failed + (rs.length - okCount outcome i rs.length) := by
  induction rs with
  | nil => intro i t; simp [loopsSendLoop, okCount]
  | cons r rest ih =>
    intro i t
    have hle := okCount_le outcome (i + 1) rest.length
    cases h : outcome i
    case ok =>
      have hr := ih (i + 1) { t with sent := t.sent + 1 }
      refine ⟨?_, ?_, ?_⟩ <;>
        simp [loopsSendLoop, okCount, h, hr.1, hr.2.1, hr.2.2] <;> omega
    case httpError b =>
      have hr := ih (i + 1) { t with failed := t.failed + 1 }
      refine ⟨?_, ?_, ?_⟩ <;>
        simp [loopsSendLoop, okCount, h, hr.1, hr.2.1, hr.2.2] <;> omega
    case thrown m =>
      have hr := ih (i + 1) { t with failed := t.failed + 1 }
      refine ⟨?_, ?_, ?_⟩ <;>
        simp [loopsSendLoop, okCount, h, hr.1, hr.2.1, hr.2.2] <;> omega

/-- Shape of a successful validation: the method was POST and the
validation result carries the extracted page id and the defaulted
status. -/
theorem validateRequest_valid_shape (cfg : StatusApi.ApiConfig) (req : StatusApi.Request)
    (h : (StatusApi.validateRequest cfg req).valid = true) :
    req.method = "POST" ∧
    StatusApi.validateRequest cfg req =
      { valid := true, pageId := StatusApi.extractPageId req.body,
        status := some (StatusApi.orReady (StatusApi.extractStatus req.body)) } := by
  unfold StatusApi.validateRequest at h ⊢
  split_ifs at h ⊢ with h1 h2 h3
  exact ⟨not_ne_iff.mp h1, rfl⟩

/-- C1: replaying a trigger signal ('Ready' or 'Test Sent') for a
document whose persisted status is already the terminal value 'Sent'
acknowledges with success ("already sent"), performs zero delivery
attempts and zero status writes, so a replayed (documentId, 'Ready')
signal after a completed send never reaches recipients again. -/
theorem c1_already_sent_short_circuit (cfg : StatusApi.ApiConfig)
    (req : StatusApi.Request) (env : StatusApi.ApiEnv)
    (hvalid : (StatusApi.validateRequest cfg req).valid = true)
    (htrig : StatusApi.orReady (StatusApi.extractStatus req.body) = "Ready" ∨
      StatusApi.orReady (StatusApi.extractStatus req.body) = "Test Sent")
    (hsent : env.page.statusName = some "Sent") :
    StatusApi.handler cfg req env =
      { httpStatus := 200, success := some true,
        message := some "Newsletter already sent" } := by
  obtain ⟨hm, hv⟩ := validateRequest_valid_shape cfg req hvalid
  rcases htrig with h | h <;>
    simp [StatusApi.handler, hm, hv, h, StatusApi.handleTrigger,
      StatusApi.isAlreadySent, hsent]

/-- C1 witness: a concrete replayed 'Ready' signal on an already-sent
document. -/
theorem c1_already_sent_short_circuit_witness :
    (StatusApi.validateRequest sampleLoopsCfg readyReq).valid = true ∧
    sentEnv.page.statusName = some "Sent" ∧
    StatusApi.handler sampleLoopsCfg readyReq sentEnv =
      { httpStatus := 200, success := some true,
        message := some "Newsletter already sent" } :=
  ⟨by decide, by decide,
    c1_already_sent_short_circuit sampleLoopsCfg readyReq sentEnv
      (by decide) (Or.inl (by decide)) (by decide)⟩

/-- C2 -- counterexample: a 'Ready' trigger on a draft document whose
dispatch completes successfully is acknowledged with success and one
send, yet the handler performs no status write at all — the persisted
status is not advanced to the terminal value by this code path (a
separate store-side automation is expected to do it). -/
theorem c2_webhook_never_advances_counterexample :
    StatusApi.handler sampleLoopsCfg readyReq draftEnv =
      { httpStatus := 200, success := some true,
        message := some "Newsletter sent successfully",
        sent := some 1, failed := some 0,
        attempts := ["your-email@example.com"], statusWrites := [] } ∧
    (StatusApi.handler sampleLoopsCfg readyReq draftEnv).statusWrites = [] := by
  constructor <;> decide

/-- C2 -- amended: the advance-on-success behaviour lives in the CLI
single-send path: `sendSingleNewsletter` on a 'Ready' document advances
the persisted status to 'Sent' exactly when no step threw, and reports a
failed result with no status write when fetching content throws; the
webhook handler itself never advances the status (an external automation
is expected to), and on a content-fetch exception it returns a
server-error response with no status write, so a retry is safe. -/
theorem c2_advance_only_without_throw
    (cfg : SendNewsletter.CliConfig) (env : SendNewsletter.CliEnv)
    (cfgA : StatusApi.ApiConfig) (req : StatusApi.Request) (envA : StatusApi.ApiEnv)
    (h1 : env.retrieveThrows = false) (h2 : env.pageStatus = some "Ready")
    (h3 : env.markAsSentThrows = false)
    (hvalid : (StatusApi.validateRequest cfgA req).valid = true)
    (htrig : StatusApi.orReady (StatusApi.extractStatus req.body) = "Ready" ∨
      StatusApi.orReady (StatusApi.extractStatus req.body) = "Test Sent")
    (hnotsent : envA.page.statusName ≠ some "Sent")
    (hthrow : envA.contentFetchThrows = true) :
    ((env.blocksFetchThrows = false →
        (SendNewsletter.sendSingleNewsletter cfg env).success = true ∧
        (SendNewsletter.sendSingleNewsletter cfg env).statusWrites = ["Sent"]) ∧
      (env.blocksFetchThrows = true →
        (SendNewsletter.sendSingleNewsletter cfg env).success = false ∧
        (SendNewsletter.sendSingleNewsletter cfg env).statusWrites = [])) ∧
    StatusApi.handler cfgA req envA =
      { httpStatus := 500, success := some false,
        error := some envA.contentErrorMsg } := by
  obtain ⟨hm, hv⟩ := validateRequest_valid_shape cfgA req hvalid
  refine ⟨⟨?_, ?_⟩, ?_⟩
  · intro hb
    simp [SendNewsletter.sendSingleNewsletter, h1, h2, h3, hb,
      SendNewsletter.getEmailRecipients]
  · intro hb
    simp [SendNewsletter.sendSingleNewsletter, h1, h2, hb]
  · rcases htrig with h | h <;>
      simp [StatusApi.handler, hm, hv, h, StatusApi.handleTrigger,
        StatusApi.isAlreadySent, hnotsent, hthrow]

/-- C2 witness: concrete successful CLI send (status advanced) and a
concrete content-fetch failure in the webhook (500, no status write). -/
theorem c2_advance_only_without_throw_witness :
    readyCliEnv.pageStatus = some "Ready" ∧
    fetchFailEnv.contentFetchThrows = true ∧
    ((SendNewsletter.sendSingleNewsletter {} readyCliEnv).success = true ∧
      (SendNewsletter.sendSingleNewsletter {} readyCliEnv).statusWrites = ["Sent"]) ∧
    StatusApi.handler sampleLoopsCfg readyReq fetchFailEnv =
      { httpStatus := 500, success := some false, error := some "fetch failed" } := by
  have h := c2_advance_only_without_throw {} readyCliEnv sampleLoopsCfg readyReq
    fetchFailEnv rfl rfl rfl (by decide) (Or.inl (by decide)) (by decide) rfl
  exact ⟨rfl, rfl, h.1.1 rfl, h.2.trans (by decide)⟩

/-- C6: with the Loops API configured, the dispatcher attempts every
recipient in order — no recipient's failure aborts the loop — counting
each 2xx outcome as sent and each non-2xx or thrown outcome as failed. -/
theorem c6_dispatch_failure_isolation (cfg : StatusApi.ApiConfig)
    (outcome : Nat → SendOutcome) (recipients : List LoopsContact)
    (hk : strTruthy cfg.loopsApiKey = true)
    (hid : strTruthy cfg.loopsTransactionalId = true) :
    (StatusApi.sendViaLoops cfg outcome recipients).2 =
      recipients.map (fun r => r.email) ∧
    (StatusApi.sendViaLoops cfg outcome recipients).1.sent =
      okCount outcome 0 recipients.length ∧
    (StatusApi.sendViaLoops cfg outcome recipients).1.failed =
      recipients.length - okCount outcome 0 recipients.length := by
  have h := loopsSendLoop_spec outcome recipients 0 {}
  simpa [StatusApi.sendViaLoops, hk, hid] using h

/-- C6 witness: three recipients where exactly the second call throws —
the tally is {sent := 2, failed := 1} and all three are attempted. -/
theorem c6_dispatch_failure_isolation_witness :
    strTruthy sampleLoopsCfg.loopsApiKey = true ∧
    (StatusApi.sendViaLoops sampleLoopsCfg secondThrowsOutcome threeRecipients).1 =
      { sent := 2, failed := 1 } ∧
    (StatusApi.sendViaLoops sampleLoopsCfg secondThrowsOutcome threeRecipients).2 =
      ["a@example.com", "b@example.com", "c@example.com"] := by
  have h := c6_dispatch_failure_isolation sampleLoopsCfg secondThrowsOutcome
    threeRecipients (by decide) (by decide)
  refine ⟨by decide, ?_, ?_⟩
  · have hs := h.2.1
    have hf := h.2.2
    have hpair : (StatusApi.sendViaLoops sampleLoopsCfg secondThrowsOutcome threeRecipients).1 =
        ⟨(StatusApi.sendViaLoops sampleLoopsCfg secondThrowsOutcome threeRecipients).1.sent,
          (StatusApi.sendViaLoops sampleLoopsCfg secondThrowsOutcome threeRecipients).1.failed⟩ := rfl
    rw [hpair, hs, hf]
    decide
  · rw [h.1]
    decide

/-- C7: the recipient resolver never returns an empty list: in test mode
it returns exactly the configured test recipient, and in full mode an
empty audience or a zero-match contact query also yields exactly the
test-recipient fallback. -/
theorem c7_recipients_never_empty (cfg : StatusApi.ApiConfig)
    (env : StatusApi.ApiEnv) (isTestSend : Bool) :
    StatusApi.getRecipients cfg env isTestSend ≠ [] ∧
    (isTestSend = true →
      StatusApi.getRecipients cfg env isTestSend = [StatusApi.testRecipient cfg]) ∧
    (isTestSend = false →
      (StatusApi.getNewsletterAudience env = [] ∨
        StatusApi.getContactsByAudience env (StatusApi.getNewsletterAudience env) = []) →
      StatusApi.getRecipients cfg env isTestSend = [StatusApi.testRecipient cfg]) := by
  cases isTestSend
  case true =>
    refine ⟨?_, fun _ => ?_, fun hf => by simp at hf⟩ <;>
      simp [StatusApi.getRecipients]
  case false =>
    refine ⟨?_, fun ht => by simp at ht, fun _ hfb => ?_⟩
    · simp only [StatusApi.getRecipients, if_false, Bool.false_eq_true]
      split_ifs with ha hc
      · simp
      · simp
      · intro hnil
        rw [hnil] at hc
        simp at hc
    · simp only [StatusApi.getRecipients, if_false, Bool.false_eq_true]
      rcases hfb with hfb | hfb
      · simp [hfb]
      · split_ifs with ha hc
        · rfl
        · rfl
        · rw [hfb] at hc
          simp at hc

/-- C7 witness: a full send whose audience matches no contact with an
email falls back to the single test recipient. -/
theorem c7_recipients_never_empty_witness :
    StatusApi.getContactsByAudience
        { page := { statusName := some "Draft",
                    audience := StatusApi.AudienceProp.multiSelect ["Customers"] },
          contacts := [{ email := some "e@x.com", audience := ["Other"] }] }
        (StatusApi.getNewsletterAudience
          { page := { statusName := some "Draft",
                      audience := StatusApi.AudienceProp.multiSelect ["Customers"] },
            contacts := [{ email := some "e@x.com", audience := ["Other"] }] }) = [] ∧
    StatusApi.getRecipients {}
        { page := { statusName := some "Draft",
                    audience := StatusApi.AudienceProp.multiSelect ["Customers"] },
          contacts := [{ email := some "e@x.com", audience := ["Other"] }] } false =
      [StatusApi.testRecipient {}] := by
  refine ⟨by decide, ?_⟩
  exact (c7_recipients_never_empty {} _ false).2.2 rfl (Or.inr (by decide))

/-- C10: a webhook body that yields a page id but no status in any
recognized location validates successfully with the substituted status
'Ready', and the handler then processes it down the full-send pipeline,
subject only to the idempotency check. -/
theorem c10_statusless_body_full_send (cfg : StatusApi.ApiConfig)
    (req : StatusApi.Request) (env : StatusApi.ApiEnv)
    (hm : req.method = "POST")
    (hsec : strTruthy cfg.webhookSecret = true → req.xWebhookSecret = cfg.webhookSecret)
    (hpid : strTruthy (StatusApi.extractPageId req.body) = true)
    (hst : StatusApi.extractStatus req.body = none) :
    StatusApi.validateRequest cfg req =
      { valid := true, pageId := StatusApi.extractPageId req.body,
        status := some "Ready" } ∧
    StatusApi.handler cfg req env = StatusApi.handleTrigger cfg env false := by
  have hsecne : ¬ (strTruthy cfg.webhookSecret = true ∧
      req.xWebhookSecret ≠ cfg.webhookSecret) := by
    rintro ⟨hw, hne⟩
    exact hne (hsec hw)
  have hv : StatusApi.validateRequest cfg req =
      { valid := true, pageId := StatusApi.extractPageId req.body,
        status := some "Ready" } := by
    unfold StatusApi.validateRequest
    rw [hst]
    simp [hm, hpid, hsecne, StatusApi.orReady]
  refine ⟨hv, ?_⟩
  simp [StatusApi.handler, hm, hv]

/-- C10 witness: a body carrying only a root-level id and no status. -/
theorem c10_statusless_body_full_send_witness :
    StatusApi.extractStatus noStatusReq.body = none ∧
    StatusApi.validateRequest sampleLoopsCfg noStatusReq =
      { valid := true, pageId := some "page-1", status := some "Ready" } ∧
    StatusApi.handler sampleLoopsCfg noStatusReq draftEnv =
      StatusApi.handleTrigger sampleLoopsCfg draftEnv false := by
  have h := c10_statusless_body_full_send sampleLoopsCfg noStatusReq draftEnv
    rfl (fun _ => rfl) (by decide) rfl
  exact ⟨rfl, h.1.trans (by decide), h.2⟩

/-- The embed emission never contains a list tag. -/
theorem embedChunks_count_tag (u : Option String) (c : HtmlGen.Chunk)
    (hc : ∀ s, HtmlGen.Chunk.str s ≠ c) : (HtmlGen.embedChunks u).count c = 0 := by
  cases u with
  | none => simp [HtmlGen.embedChunks]
  | some url =>
    simp only [HtmlGen.embedChunks]
    split_ifs <;> simp [List.count_cons, hc]

/-- The embed emission contains no `<ul>` open tag. -/
theorem embedChunks_count_ulOpen (u : Option String) :
    (HtmlGen.embedChunks u).count HtmlGen.Chunk.ulOpen = 0 :=
  embedChunks_count_tag u _ (fun _ h => by cases h)

/-- The embed emission contains no `</ul>` close tag. -/
theorem embedChunks_count_ulClose (u : Option String) :
    (HtmlGen.embedChunks u).count HtmlGen.Chunk.ulClose = 0 :=
  embedChunks_count_tag u _ (fun _ h => by cases h)

/-- The embed emission contains no `<ol>` open tag. -/
theorem embedChunks_count_olOpen (u : Option String) :
    (HtmlGen.embedChunks u).count HtmlGen.Chunk.olOpen = 0 :=
  embedChunks_count_tag u _ (fun _ h => by cases h)

/-- The embed emission contains no `</ol>` close tag. -/
theorem embedChunks_count_olClose (u : Option String) :
    (HtmlGen.embedChunks u).count HtmlGen.Chunk.olClose = 0 :=
  embedChunks_count_tag u _ (fun _ h => by cases h)

open HtmlGen in
/-- Render-pass invariant: starting from list state `(inB, inN)` the
emitted close tags exceed the emitted open tags by exactly the initially
open containers, for both list kinds. -/
theorem renderLoop_balance (opts : ContentGeneratorOptions) (blocks : List Block)
    (inB inN : Bool) :
    (renderLoop opts blocks inB inN).count Chunk.ulClose =
      (renderLoop opts blocks inB inN).count Chunk.ulOpen + (if inB then 1 else 0) ∧
    (renderLoop opts blocks inB inN).count Chunk.olClose =
      (renderLoop opts blocks inB inN).count Chunk.olOpen + (if inN then 1 else 0) := by
  induction blocks, inB, inN using renderLoop.induct opts <;>
    simp_all [renderLoop, closeOpenLists, List.count_append, List.count_cons,
      embedChunks_count_ulOpen, embedChunks_count_ulClose,
      embedChunks_count_olOpen, embedChunks_count_olClose] <;>
    split_ifs <;> simp_all <;> omega

open HtmlGen in
/-- The TOC emission opens exactly as many list containers as it
closes. -/
theorem tocChunks_balance (items : List String) :
    (tocChunks items).count Chunk.ulOpen = (tocChunks items).count Chunk.ulClose ∧
    (tocChunks items).count Chunk.olOpen = (tocChunks items).count Chunk.olClose := by
  unfold tocChunks
  split
  · have h : ∀ c : Chunk, (∀ s, Chunk.str s ≠ c) →
        (items.enum.map
          (fun p => Chunk.str ("<li>" ++ toString (p.1 + 1) ++ ". " ++ p.2 ++ "</li>\n"))).count c = 0 := by
      intro c hc
      rw [List.count_eq_zero]
      intro hmem
      rcases List.mem_map.mp hmem with ⟨p, _, hp⟩
      exact hc _ hp
    constructor
    · simp [List.count_append, List.count_cons,
        h Chunk.ulOpen (fun _ => by simp), h Chunk.ulClose (fun _ => by simp)]
    · simp [List.count_append, List.count_cons,
        h Chunk.olOpen (fun _ => by simp), h Chunk.olClose (fun _ => by simp)]
  · simp

open HtmlGen in
/-- C5: for every block sequence and every options value the generator's
emissions are list-balanced: the number of `<ul>` open-tag emissions
equals the number of `</ul>` close-tag emissions, and likewise for
`<ol>`/`</ol>` (the html string is the concatenation of these
emissions). -/
theorem c5_list_balance (blocks : List Block) (opts : ContentGeneratorOptions) :
    (generateContentChunks blocks opts).count Chunk.ulOpen =
      (generateContentChunks blocks opts).count Chunk.ulClose ∧
    (generateContentChunks blocks opts).count Chunk.olOpen =
      (generateContentChunks blocks opts).count Chunk.olClose := by
  have ht := tocChunks_balance (tocItems opts.includeToc blocks)
  have hr := renderLoop_balance opts blocks false false
  unfold generateContentChunks
  constructor <;> simp only [List.count_append] <;> simp at hr <;> omega

open HtmlGen in
theorem tocItems_append_skip (inc : Bool) (pre suf : List Block) (rt : List RichItem)
    (hsuf : suf.all noTocHeading = true) :
    tocItems inc (pre ++ Block.heading_2 rt :: suf) =
      tocItems inc (pre ++ [Block.heading_2 rt]) := by
  cases inc
  case false => simp [tocItems]
  case true =>
    simp only [tocItems, if_true, List.filterMap_append, List.filterMap_cons]
    have hnil : suf.filterMap (fun b =>
        match b with
        | Block.heading_1 rt' => if getPlainText rt' = "" then none else some (getPlainText rt')
        | _ => none) = [] := by
      rw [List.filterMap_eq_nil_iff]
      intro b hb
      have := List.all_eq_true.mp hsuf b hb
      cases b <;> simp_all [noTocHeading]
    simp [hnil]

open HtmlGen in
theorem renderLoop_skip_stable (opts : ContentGeneratorOptions) (rt : List RichItem)
    (hskip : opts.skipSections.contains (getPlainText rt) = true) :
    ∀ (n : Nat) (pre suf : List Block), pre.length ≤ n → ∀ (inB inN : Bool),
      renderLoop opts (pre ++ Block.heading_2 rt :: suf) inB inN =
        renderLoop opts (pre ++ [Block.heading_2 rt]) inB inN := by
  have hskip' : getPlainText rt ∈ opts.skipSections := by simpa using hskip
  intro n
  induction n with
  | zero =>
    intro pre suf hle inB inN
    have hpre : pre = [] := List.length_eq_zero.mp (Nat.le_zero.mp hle)
    subst hpre
    simp [renderLoop, hskip']
  | succ n ih =>
    intro pre suf hle inB inN
    cases pre with
    | nil => simp [renderLoop, hskip']
    | cons b pre' =>
      have hle' : pre'.length ≤ n := by simp at hle; omega
      cases b with
      | heading_1 rt' => simp [renderLoop, ih pre' suf hle']
      | heading_2 rt' =>
        by_cases hc : getPlainText rt' ∈ opts.skipSections
        · simp [renderLoop, hc]
        · simp [renderLoop, hc, ih pre' suf hle']
      | heading_3 rt' => simp [renderLoop, ih pre' suf hle']
      | paragraph rt' => simp [renderLoop, ih pre' suf hle']
      | bulleted_list_item rt' => simp [renderLoop, ih pre' suf hle']
      | numbered_list_item rt' => simp [renderLoop, ih pre' suf hle']
      | quote rt' => simp [renderLoop, ih pre' suf hle']
      | divider => simp [renderLoop, ih pre' suf hle']
      | callout rt' => simp [renderLoop, ih pre' suf hle']
      | image fu eu cap =>
        cases pre' with
        | nil =>
          have hdv : detectVideoLink (some (Block.heading_2 rt)) = none := rfl
          simp [renderLoop, hskip', hdv, ih [] suf (by omega)]
        | cons next pre'' =>
          have hle'' : pre''.length ≤ n := by simp at hle; omega
          have hA := ih (next :: pre'') suf hle'
          have hB := ih pre'' suf hle''
          simp only [List.cons_append] at hA
          simp only [List.cons_append, renderLoop]
          cases hdv : detectVideoLink (some next) with
          | some v => simp [hdv, hA false false, hB false false]
          | none => simp [hdv, hA false false, hB false false]
      | video fu eu => simp [renderLoop, ih pre' suf hle']
      | embed u => simp [renderLoop, ih pre' suf hle']
      | bookmark u => simp [renderLoop, ih pre' suf hle']
      | other t => simp [renderLoop, ih pre' suf hle']

open HtmlGen in
/-- C3 -- counterexample: the table-of-contents pass scans the whole
block sequence, so for the input [H2('Collateral Checklist'),
H1('Secret')] with the default options (skipSections containing
'Collateral Checklist', includeToc true) the text of the level-1 heading
placed after the matched skip heading still appears in the output — the
generator does emit output mentioning a block after the skip heading. -/
theorem c3_toc_leak_counterexample :
    generateContentHtml tocLeakBlocks {} =
      "<div class=\"toc-box\">\n<p>In This Issue</p>\n<ul>\n<li>1. Secret</li>\n</ul>\n</div>\n" ∧
    strIncludes (generateContentHtml tocLeakBlocks {}) "Secret" = true := by
  constructor <;> decide

open HtmlGen in
/-- C3 -- amended: the render pass emits nothing at or after the first
level-2 heading matching skipSections (any open list is closed first):
when no level-1 heading with nonempty text follows the skip heading, the
output equals the output of the sequence truncated right after the skip
heading; and the concrete scenario [H2('Feature A'), Bullet('x'),
Bullet('y'), H2('Collateral Checklist'), Bullet('ignored')] renders as
exactly one h2, one ul with two li entries, and no trace of 'Collateral
Checklist' or 'ignored'. -/
theorem c3_skip_section_truncation (pre suf : List Block) (rt : List RichItem)
    (opts : ContentGeneratorOptions)
    (hskip : opts.skipSections.contains (getPlainText rt) = true)
    (hsuf : suf.all noTocHeading = true) :
    generateContentHtml (pre ++ Block.heading_2 rt :: suf) opts =
      generateContentHtml (pre ++ [Block.heading_2 rt]) opts ∧
    generateContentHtml (featureABlocks ++ Block.heading_2 ccRt :: ignoredBlocks) {} =
      "<h2>Feature A</h2>\n<ul>\n  <li>x</li>\n  <li>y</li>\n</ul>\n" := by
  constructor
  · unfold generateContentHtml generateContentChunks
    rw [tocItems_append_skip opts.includeToc pre suf rt hsuf,
      renderLoop_skip_stable opts rt hskip pre.length pre suf le_rfl false false]
  · decide

open HtmlGen in
/-- C3 witness: the concrete scenario, with the suffix containing no
level-1 heading. -/
theorem c3_skip_section_truncation_witness :
    (ContentGeneratorOptions.skipSections {}).contains (getPlainText ccRt) = true ∧
    ignoredBlocks.all noTocHeading = true ∧
    generateContentHtml (featureABlocks ++ Block.heading_2 ccRt :: ignoredBlocks) {} =
      generateContentHtml (featureABlocks ++ [Block.heading_2 ccRt]) {} ∧
    generateContentHtml (featureABlocks ++ Block.heading_2 ccRt :: ignoredBlocks) {} =
      "<h2>Feature A</h2>\n<ul>\n  <li>x</li>\n  <li>y</li>\n</ul>\n" := by
  have h := c3_skip_section_truncation featureABlocks ignoredBlocks ccRt {}
    (by decide) (by decide)
  exact ⟨by decide, by decide, h.1, h.2⟩

theorem lazyClose2_length (d1 d2 : Char) :
    ∀ (t p r : List Char), lazyClose2 d1 d2 t = some (p, r) →
      p.length + 2 + r.length = t.length
  | a :: b :: t, p, r => by
    intro h
    simp only [lazyClose2] at h
    split_ifs at h with h1 h2
    · simp only [Option.some.injEq, Prod.mk.injEq] at h
      obtain ⟨hp, hr⟩ := h
      subst hp; subst hr
      simp only [List.length_cons, List.length_nil]
      omega
    · rw [Option.map_eq_some'] at h
      obtain ⟨q, hq, hfq⟩ := h
      have hlen := lazyClose2_length d1 d2 (b :: t) q.1 q.2 (by rw [hq])
      simp only [Prod.ext_iff] at hfq
      obtain ⟨hp, hr⟩ := hfq
      subst hp; subst hr
      simp only [List.length_cons] at hlen ⊢
      omega
  | [], p, r => by intro h; simp [lazyClose2] at h
  | [a], p, r => by intro h; simp [lazyClose2] at h

theorem lazyClose1_length (d : Char) :
    ∀ (t p r : List Char), lazyClose1 d t = some (p, r) →
      p.length + 1 + r.length = t.length
  | a :: t, p, r => by
    intro h
    simp only [lazyClose1] at h
    split_ifs at h with h1 h2
    · simp only [Option.some.injEq, Prod.mk.injEq] at h
      obtain ⟨hp, hr⟩ := h
      subst hp; subst hr
      simp only [List.length_cons, List.length_nil]
      omega
    · rw [Option.map_eq_some'] at h
      obtain ⟨q, hq, hfq⟩ := h
      have hlen := lazyClose1_length d t q.1 q.2 (by rw [hq])
      simp only [Prod.ext_iff] at hfq
      obtain ⟨hp, hr⟩ := hfq
      subst hp; subst hr
      simp only [List.length_cons] at hlen ⊢
      omega
  | [], p, r => by intro h; simp [lazyClose1] at h

theorem urlClose_length :
    ∀ (t u r : List Char), Review.urlClose t = some (u, r) →
      u.length + 1 + r.length = t.length
  | a :: t, u, r => by
    intro h
    simp only [Review.urlClose] at h
    split_ifs at h with h1 h2
    · simp only [Option.some.injEq, Prod.mk.injEq] at h
      obtain ⟨hu, hr⟩ := h
      subst hu; subst hr
      cases t with
      | nil => simp at h2
      | cons b t' =>
        simp only [List.length_cons, List.length_nil, List.tail_cons]
        omega
    · rw [Option.map_eq_some'] at h
      obtain ⟨q, hq, hfq⟩ := h
      have hlen := urlClose_length t q.1 q.2 (by rw [hq])
      simp only [Prod.ext_iff] at hfq
      obtain ⟨hu, hr⟩ := hfq
      subst hu; subst hr
      simp only [List.length_cons] at hlen ⊢
      omega
  | [], u, r => by intro h; simp [Review.urlClose] at h

theorem linkClose_length :
    ∀ (t p u r : List Char), Review.linkClose t = some (p, u, r) →
      p.length + u.length + 3 + r.length = t.length
  | a :: t, p, u, r => by
    intro h
    simp only [Review.linkClose] at h
    split_ifs at h with h1 h2
    · cases hu : Review.urlClose t.tail with
      | some q =>
        rw [hu] at h
        simp only [Option.some.injEq, Prod.mk.injEq] at h
        obtain ⟨hp, huq, hr⟩ := h
        subst hp; subst huq; subst hr
        have hlen := urlClose_length t.tail q.1 q.2 (by rw [hu])
        obtain ⟨h1a, h1b⟩ := h1
        cases t with
        | nil => simp at h1b
        | cons b t' =>
          simp at hlen ⊢
          omega
      | none =>
        rw [hu] at h
        rw [Option.map_eq_some'] at h
        obtain ⟨q, hq, hfq⟩ := h
        have hlen := linkClose_length t q.1 q.2.1 q.2.2 (by rw [hq])
        simp only [Prod.ext_iff] at hfq
        obtain ⟨hp, huq, hr⟩ := hfq
        subst hp; subst huq; subst hr
        simp only [List.length_cons] at hlen ⊢
        omega
    · rw [Option.map_eq_some'] at h
      obtain ⟨q, hq, hfq⟩ := h
      have hlen := linkClose_length t q.1 q.2.1 q.2.2 (by rw [hq])
      simp only [Prod.ext_iff] at hfq
      obtain ⟨hp, huq, hr⟩ := hfq
      subst hp; subst huq; subst hr
      simp only [List.length_cons] at hlen ⊢
      omega
  | [], p, u, r => by intro h; simp [Review.linkClose] at h

theorem mdTryBold_length :
    ∀ (s c r : List Char), mdTryBold s = some (c, r) → r.length < s.length
  | c1 :: c2 :: a :: r0, c, r => by
    intro h
    simp only [mdTryBold] at h
    split_ifs at h with h1
    · rw [Option.map_eq_some'] at h
      obtain ⟨q, hq, hfq⟩ := h
      have := lazyClose2_length '*' '*' r0 q.1 q.2 (by rw [hq])
      simp only [Prod.ext_iff] at hfq
      obtain ⟨hc, hr⟩ := hfq
      subst hr
      simp only [List.length_cons]
      omega
  | [], c, r => by intro h; simp [mdTryBold] at h
  | [a], c, r => by intro h; simp [mdTryBold] at h
  | [a, b], c, r => by intro h; simp [mdTryBold] at h

theorem review_tryItalic_length :
    ∀ (s c r : List Char), Review.tryItalic s = some (c, r) → r.length < s.length
  | c1 :: a :: r0, c, r => by
    intro h
    simp only [Review.tryItalic] at h
    split_ifs at h with h1
    · rw [Option.map_eq_some'] at h
      obtain ⟨q, hq, hfq⟩ := h
      have := lazyClose1_length '*' r0 q.1 q.2 (by rw [hq])
      simp only [Prod.ext_iff] at hfq
      obtain ⟨hc, hr⟩ := hfq
      subst hr
      simp only [List.length_cons]
      omega
  | [], c, r => by intro h; simp [Review.tryItalic] at h
  | [a], c, r => by intro h; simp [Review.tryItalic] at h

theorem review_tryCode_length :
    ∀ (s c r : List Char), Review.tryCode s = some (c, r) → r.length < s.length
  | b :: a :: r0, c, r => by
    intro h
    simp only [Review.tryCode] at h
    split_ifs at h with h1
    · rw [Option.map_eq_some'] at h
      obtain ⟨q, hq, hfq⟩ := h
      have := lazyClose1_length backtickChar r0 q.1 q.2 (by rw [hq])
      simp only [Prod.ext_iff] at hfq
      obtain ⟨hc, hr⟩ := hfq
      subst hr
      simp only [List.length_cons]
      omega
  | [], c, r => by intro h; simp [Review.tryCode] at h
  | [a], c, r => by intro h; simp [Review.tryCode] at h

theorem review_tryLink_length :
    ∀ (s c u r : List Char), Review.tryLink s = some (c, u, r) → r.length < s.length
  | c1 :: a :: r0, c, u, r => by
    intro h
    simp only [Review.tryLink] at h
    split_ifs at h with h1
    · rw [Option.map_eq_some'] at h
      obtain ⟨q, hq, hfq⟩ := h
      have := linkClose_length r0 q.1 q.2.1 q.2.2 (by rw [hq])
      simp only [Prod.ext_iff] at hfq
      obtain ⟨hc, hu, hr⟩ := hfq
      subst hr
      simp only [List.length_cons]
      omega
  | [], c, u, r => by intro h; simp [Review.tryLink] at h
  | [a], c, u, r => by intro h; simp [Review.tryLink] at h

theorem review_tryTok_length (s : List Char) (k : Review.Tok) (rest : List Char)
    (h : Review.tryTok s = some (k, rest)) : rest.length < s.length := by
  unfold Review.tryTok at h
  cases hb : mdTryBold s with
  | some q =>
    rw [hb] at h
    simp only [Option.some.injEq, Prod.mk.injEq] at h
    obtain ⟨-, hr⟩ := h
    subst hr
    exact mdTryBold_length s q.1 q.2 (by rw [hb])
  | none =>
    rw [hb] at h
    cases hi : Review.tryItalic s with
    | some q =>
      rw [hi] at h
      simp only [Option.some.injEq, Prod.mk.injEq] at h
      obtain ⟨-, hr⟩ := h
      subst hr
      exact review_tryItalic_length s q.1 q.2 (by rw [hi])
    | none =>
      rw [hi] at h
      cases hc : Review.tryCode s with
      | some q =>
        rw [hc] at h
        simp only [Option.some.injEq, Prod.mk.injEq] at h
        obtain ⟨-, hr⟩ := h
        subst hr
        exact review_tryCode_length s q.1 q.2 (by rw [hc])
      | none =>
        rw [hc] at h
        cases hl : Review.tryLink s with
        | some q =>
          rw [hl] at h
          simp only [Option.some.injEq, Prod.mk.injEq] at h
          obtain ⟨-, hr⟩ := h
          subst hr
          exact review_tryLink_length s q.1 q.2.1 q.2.2 (by rw [hl])
        | none => rw [hl] at h; simp at h

theorem review_findTok_length :
    ∀ (s pre : List Char) (k : Review.Tok) (rest : List Char),
      Review.findTok s = some (pre, k, rest) → rest.length < s.length
  | c :: t, pre, k, rest => by
    intro h
    simp only [Review.findTok] at h
    cases ht : Review.tryTok (c :: t) with
    | some q =>
      rw [ht] at h
      simp only [Option.some.injEq, Prod.mk.injEq] at h
      obtain ⟨-, -, hr⟩ := h
      subst hr
      exact review_tryTok_length (c :: t) q.1 q.2 (by rw [ht])
    | none =>
      rw [ht] at h
      rw [Option.map_eq_some'] at h
      obtain ⟨q, hq, hfq⟩ := h
      have := review_findTok_length t q.1 q.2.1 q.2.2 (by rw [hq])
      simp only [Prod.ext_iff] at hfq
      obtain ⟨-, -, hr⟩ := hfq
      subst hr
      simp only [List.length_cons]
      omega
  | [], pre, k, rest => by intro h; simp [Review.findTok] at h

theorem review_scanRunsFuel_stable :
    ∀ (n : Nat) (s : List Char), s.length ≤ n → ∀ (fuel : Nat), s.length ≤ fuel →
      Review.scanRunsFuel fuel s = Review.scanRunsFuel s.length s := by
  intro n
  induction n with
  | zero =>
    intro s hs fuel hf
    have : s = [] := List.length_eq_zero.mp (Nat.le_zero.mp hs)
    subst this
    cases fuel with
    | zero => rfl
    | succ f => simp [Review.scanRunsFuel, Review.findTok]
  | succ n ih =>
    intro s hs fuel hf
    cases s with
    | nil =>
      cases fuel with
      | zero => rfl
      | succ f => simp [Review.scanRunsFuel, Review.findTok]
    | cons c t =>
      cases fuel with
      | zero => simp at hf
      | succ f =>
        simp only [Review.scanRunsFuel, List.length_cons]
        cases hft : Review.findTok (c :: t) with
        | none => rfl
        | some q =>
          obtain ⟨pre, k, rest⟩ := q
          have hlt := review_findTok_length (c :: t) pre k rest hft
          simp only [List.length_cons] at hlt hs hf
          have e1 := ih rest (by omega) f (by omega)
          have e2 := ih rest (by omega) t.length (by omega)
          simp only [e1, e2]

theorem review_scanRuns_none (s : List Char) (h : Review.findTok s = none) :
    Review.scanRuns s = if s = [] then [] else [{ content := s }] := by
  unfold Review.scanRuns
  cases s with
  | nil => rfl
  | cons c t => simp only [Review.scanRunsFuel, List.length_cons, h]

theorem review_scanRuns_some (s pre : List Char) (k : Review.Tok) (rest : List Char)
    (h : Review.findTok s = some (pre, k, rest)) :
    Review.scanRuns s =
      (if pre = [] then [] else [{ content := pre }]) ++
        (match Review.classifyTok k with
          | some run => [run]
          | none => []) ++
        Review.scanRuns rest := by
  unfold Review.scanRuns
  cases s with
  | nil => simp [Review.findTok] at h
  | cons c t =>
    have hlt := review_findTok_length (c :: t) pre k rest h
    simp only [List.length_cons] at hlt
    simp only [Review.scanRunsFuel, List.length_cons, h]
    rw [review_scanRunsFuel_stable t.length rest (by omega) t.length (by omega)]

theorem cleanChar_spec (c : Char) (h : cleanChar c = true) :
    ¬ c = '*' ∧ ¬ c = backtickChar ∧ ¬ c = '[' ∧ ¬ c = ']' ∧
      ¬ c = '(' ∧ ¬ c = ')' ∧ ¬ c = '\n' := by
  simp [cleanChar, mdDelim] at h
  exact ⟨h.1, h.2.1, h.2.2.1, h.2.2.2.1, h.2.2.2.2.1, h.2.2.2.2.2.1, h.2.2.2.2.2.2⟩

theorem mdTryBold_not_star (c : Char) (t : List Char) (h : ¬ c = '*') :
    mdTryBold (c :: t) = none := by
  match t with
  | [] => rfl
  | [a] => rfl
  | a :: b :: r => simp [mdTryBold, h]

theorem review_tryItalic_not_star (c : Char) (t : List Char) (h : ¬ c = '*') :
    Review.tryItalic (c :: t) = none := by
  match t with
  | [] => rfl
  | a :: r => simp [Review.tryItalic, h]

theorem review_tryCode_not_bt (c : Char) (t : List Char) (h : ¬ c = backtickChar) :
    Review.tryCode (c :: t) = none := by
  match t with
  | [] => rfl
  | a :: r => simp [Review.tryCode, h]

theorem review_tryLink_not_bracket (c : Char) (t : List Char) (h : ¬ c = '[') :
    Review.tryLink (c :: t) = none := by
  match t with
  | [] => rfl
  | a :: r => simp [Review.tryLink, h]

theorem review_tryTok_clean_head (c : Char) (t : List Char) (h : cleanChar c = true) :
    Review.tryTok (c :: t) = none := by
  obtain ⟨h1, h2, h3, -⟩ := cleanChar_spec c h
  unfold Review.tryTok
  rw [mdTryBold_not_star c t h1, review_tryItalic_not_star c t h1,
    review_tryCode_not_bt c t h2, review_tryLink_not_bracket c t h3]

theorem review_findTok_append_clean :
    ∀ (l : List Char), l.all cleanChar = true → ∀ (r : List Char),
      Review.findTok (l ++ r) =
        (Review.findTok r).map (fun p => (l ++ p.1, p.2.1, p.2.2)) := by
  intro l
  induction l with
  | nil =>
    intro _ r
    cases hr : Review.findTok r with
    | none => simp [hr]
    | some q => simp [hr]
  | cons c l' ih =>
    intro hall r
    simp only [List.all_cons, Bool.and_eq_true] at hall
    have h1 : Review.findTok (c :: (l' ++ r)) =
        (Review.findTok (l' ++ r)).map (fun p => (c :: p.1, p.2.1, p.2.2)) := by
      simp only [Review.findTok]
      rw [review_tryTok_clean_head c (l' ++ r) hall.1]
    rw [List.cons_append, h1, ih hall.2 r]
    cases hr : Review.findTok r with
    | none => simp [hr]
    | some q => simp [hr]

theorem review_findTok_clean (l : List Char) (h : l.all cleanChar = true) :
    Review.findTok l = none := by
  have := review_findTok_append_clean l h []
  simpa [Review.findTok] using this

theorem lazyClose2_clean_close :
    ∀ (c : List Char), c.all cleanChar = true → ∀ (R : List Char),
      lazyClose2 '*' '*' (c ++ '*' :: '*' :: R) = some (c, R)
  | [] => by intro h R; simp [lazyClose2]
  | a :: c' => by
    intro h R
    simp only [List.all_cons, Bool.and_eq_true] at h
    have hspec := cleanChar_spec a h.1
    have ih := lazyClose2_clean_close c' h.2 R
    cases c' with
    | nil => simp [lazyClose2, hspec.1, hspec.2.2.2.2.2.2]
    | cons b c'' =>
      simp only [List.cons_append] at ih ⊢
      simp [lazyClose2, hspec.1, hspec.2.2.2.2.2.2, ih]

theorem lazyClose1_clean_close (d : Char) :
    ∀ (c : List Char), (∀ x ∈ c, ¬ x = d ∧ ¬ x = '\n') → ∀ (R : List Char),
      lazyClose1 d (c ++ d :: R) = some (c, R)
  | [] => by intro h R; simp [lazyClose1]
  | a :: c' => by
    intro h R
    have ha := h a (by simp)
    have ih := lazyClose1_clean_close d c' (fun x hx => h x (by simp [hx])) R
    simp [lazyClose1, ha.1, ha.2, ih]

theorem urlClose_cons (a : Char) (r : List Char) :
    Review.urlClose (a :: r) =
      if a = '\n' then none
      else if r.head? = some ')' then some ([a], r.tail)
      else (Review.urlClose r).map (fun p => (a :: p.1, p.2)) := rfl

theorem linkClose_cons (a : Char) (r : List Char) :
    Review.linkClose (a :: r) =
      if a = ']' ∧ r.head? = some '(' then
        match Review.urlClose r.tail with
        | some (u, rest) => some ([], u, rest)
        | none => (Review.linkClose r).map (fun p => (a :: p.1, p.2.1, p.2.2))
      else if a = '\n' then none
      else (Review.linkClose r).map (fun p => (a :: p.1, p.2.1, p.2.2)) := rfl

theorem urlClose_clean_close :
    ∀ (u : List Char), ¬ u = [] → (∀ x ∈ u, ¬ x = ')' ∧ ¬ x = '\n') →
      ∀ (R : List Char), Review.urlClose (u ++ ')' :: R) = some (u, R)
  | [] => by intro h _ _; simp at h
  | a :: u' => by
    intro _ h R
    have ha := h a (by simp)
    cases u' with
    | nil => simp [Review.urlClose, ha.2]
    | cons b u'' =>
      have hb := h b (by simp)
      have ih := urlClose_clean_close (b :: u'') (by simp)
        (fun x hx => h x (by simp at hx ⊢; tauto)) R
      simp only [List.cons_append] at ih ⊢
      rw [urlClose_cons]
      simp only [List.head?_cons, if_neg ha.2, ih]
      simp [hb.1]

theorem linkClose_clean_close :
    ∀ (p : List Char), (∀ x ∈ p, ¬ x = ']' ∧ ¬ x = '\n') →
      ∀ (u : List Char), ¬ u = [] → (∀ x ∈ u, ¬ x = ')' ∧ ¬ x = '\n') →
      ∀ (R : List Char),
      Review.linkClose (p ++ ']' :: '(' :: (u ++ ')' :: R)) = some (p, u, R)
  | [] => by
    intro _ u hu hucl R
    rw [List.nil_append, linkClose_cons]
    simp [urlClose_clean_close u hu hucl R]
  | a :: p' => by
    intro h u hu hucl R
    have ha := h a (by simp)
    have ih := linkClose_clean_close p' (fun x hx => h x (by simp [hx])) u hu hucl R
    rw [List.cons_append, linkClose_cons]
    simp [ha.1, ha.2, ih]

theorem mdTryBold_second_not_star (a b : Char) (t : List Char) (h : ¬ b = '*') :
    mdTryBold (a :: b :: t) = none := by
  match t with
  | [] => rfl
  | x :: r => simp [mdTryBold, h]

theorem review_tryTok_bold (c R : List Char) (hc : cleanChars c = true) :
    Review.tryTok ('*' :: '*' :: (c ++ '*' :: '*' :: R)) = some (.bold c, R) := by
  simp only [cleanChars, Bool.and_eq_true, decide_eq_true_eq] at hc
  obtain ⟨hne, hcl⟩ := hc
  cases c with
  | nil => simp at hne
  | cons a c' =>
    simp only [List.all_cons, Bool.and_eq_true] at hcl
    have ha := cleanChar_spec a hcl.1
    unfold Review.tryTok
    have hb : mdTryBold ('*' :: '*' :: a :: (c' ++ '*' :: '*' :: R)) =
        some (a :: c', R) := by
      simp [mdTryBold, ha.2.2.2.2.2.2, lazyClose2_clean_close c' hcl.2 R]
    simp only [List.cons_append] at hb ⊢
    rw [hb]

theorem review_tryTok_italic (c R : List Char) (hc : cleanChars c = true) :
    Review.tryTok ('*' :: (c ++ '*' :: R)) = some (.italic c, R) := by
  simp only [cleanChars, Bool.and_eq_true, decide_eq_true_eq] at hc
  obtain ⟨hne, hcl⟩ := hc
  cases c with
  | nil => simp at hne
  | cons a c' =>
    simp only [List.all_cons, Bool.and_eq_true] at hcl
    have ha := cleanChar_spec a hcl.1
    unfold Review.tryTok
    have hcl1 : ∀ x ∈ c', ¬ x = '*' ∧ ¬ x = '\n' := by
      intro x hx
      have := cleanChar_spec x (by
        have := List.all_eq_true.mp hcl.2 x hx
        simpa using this)
      exact ⟨this.1, this.2.2.2.2.2.2⟩
    have hit : Review.tryItalic ('*' :: a :: (c' ++ '*' :: R)) = some (a :: c', R) := by
      simp [Review.tryItalic, ha.2.2.2.2.2.2, lazyClose1_clean_close '*' c' hcl1 R]
    have hbo : mdTryBold ('*' :: a :: (c' ++ '*' :: R)) = none :=
      mdTryBold_second_not_star '*' a _ ha.1
    simp only [List.cons_append] at hit hbo ⊢
    rw [hbo, hit]

theorem review_tryTok_code (c R : List Char) (hc : cleanChars c = true) :
    Review.tryTok (backtickChar :: (c ++ backtickChar :: R)) = some (.code c, R) := by
  simp only [cleanChars, Bool.and_eq_true, decide_eq_true_eq] at hc
  obtain ⟨hne, hcl⟩ := hc
  cases c with
  | nil => simp at hne
  | cons a c' =>
    simp only [List.all_cons, Bool.and_eq_true] at hcl
    have ha := cleanChar_spec a hcl.1
    unfold Review.tryTok
    have hcl1 : ∀ x ∈ c', ¬ x = backtickChar ∧ ¬ x = '\n' := by
      intro x hx
      have := cleanChar_spec x (by
        have := List.all_eq_true.mp hcl.2 x hx
        simpa using this)
      exact ⟨this.2.1, this.2.2.2.2.2.2⟩
    have hco : Review.tryCode (backtickChar :: a :: (c' ++ backtickChar :: R)) =
        some (a :: c', R) := by
      simp [Review.tryCode, ha.2.2.2.2.2.2, lazyClose1_clean_close backtickChar c' hcl1 R]
    have hbo : mdTryBold (backtickChar :: a :: (c' ++ backtickChar :: R)) = none :=
      mdTryBold_not_star backtickChar _ (by decide)
    have hit : Review.tryItalic (backtickChar :: a :: (c' ++ backtickChar :: R)) = none :=
      review_tryItalic_not_star backtickChar _ (by decide)
    simp only [List.cons_append] at hco hbo hit ⊢
    rw [hbo, hit, hco]

theorem review_tryTok_link (c u R : List Char) (hc : cleanChars c = true)
    (hu : cleanChars u = true) :
    Review.tryTok ('[' :: (c ++ ']' :: '(' :: (u ++ ')' :: R))) =
      some (.link c u, R) := by
  simp only [cleanChars, Bool.and_eq_true, decide_eq_true_eq] at hc hu
  obtain ⟨hne, hcl⟩ := hc
  obtain ⟨hune, hucl⟩ := hu
  cases c with
  | nil => simp at hne
  | cons a c' =>
    simp only [List.all_cons, Bool.and_eq_true] at hcl
    have ha := cleanChar_spec a hcl.1
    unfold Review.tryTok
    have hclP : ∀ x ∈ c', ¬ x = ']' ∧ ¬ x = '\n' := by
      intro x hx
      have := cleanChar_spec x (by
        have := List.all_eq_true.mp hcl.2 x hx
        simpa using this)
      exact ⟨this.2.2.2.1, this.2.2.2.2.2.2⟩
    have huclP : ∀ x ∈ u, ¬ x = ')' ∧ ¬ x = '\n' := by
      intro x hx
      have := cleanChar_spec x (by
        have := List.all_eq_true.mp hucl x hx
        simpa using this)
      exact ⟨this.2.2.2.2.2.1, this.2.2.2.2.2.2⟩
    have hli : Review.tryLink ('[' :: a :: (c' ++ ']' :: '(' :: (u ++ ')' :: R))) =
        some (a :: c', u, R) := by
      simp [Review.tryLink, ha.2.2.2.2.2.2,
        linkClose_clean_close c' hclP u hune huclP R]
    have hbo : mdTryBold ('[' :: a :: (c' ++ ']' :: '(' :: (u ++ ')' :: R))) = none :=
      mdTryBold_not_star '[' _ (by decide)
    have hit : Review.tryItalic ('[' :: a :: (c' ++ ']' :: '(' :: (u ++ ')' :: R))) = none :=
      review_tryItalic_not_star '[' _ (by decide)
    have hco : Review.tryCode ('[' :: a :: (c' ++ ']' :: '(' :: (u ++ ')' :: R))) = none :=
      review_tryCode_not_bt '[' _ (by decide)
    simp only [List.cons_append] at hli hbo hit hco ⊢
    rw [hbo, hit, hco, hli]

theorem isPrefixOf_self_append (l t : List Char) : l.isPrefixOf (l ++ t) = true := by
  induction l with
  | nil => simp [List.isPrefixOf]
  | cons a l' ih => simp [List.isPrefixOf, ih]

theorem isSuffixOf_append_self (l t : List Char) : l.isSuffixOf (t ++ l) = true := by
  simp [List.isSuffixOf, List.reverse_append, isPrefixOf_self_append]

theorem classify_bold (c : List Char) :
    Review.classifyTok (.bold c) = some { content := c, bold := true } := by
  have h1 : List.isPrefixOf ['*', '*'] (Review.Tok.full (.bold c)) = true := by
    simp [Review.Tok.full, List.isPrefixOf]
  have h2 : List.isSuffixOf ['*', '*'] (Review.Tok.full (.bold c)) = true := by
    show List.isSuffixOf ['*', '*'] ('*' :: '*' :: c ++ ['*', '*']) = true
    exact isSuffixOf_append_self ['*', '*'] ('*' :: '*' :: c)
  simp [Review.classifyTok, h1, h2]

theorem classify_italic (a : Char) (c' : List Char) (ha : ¬ a = '*') :
    Review.classifyTok (.italic (a :: c')) =
      some { content := a :: c', italic := true } := by
  have ha' : ¬ '*' = a := fun h => ha h.symm
  have h1 : List.isPrefixOf ['*', '*'] (Review.Tok.full (.italic (a :: c'))) = false := by
    simp [Review.Tok.full, List.isPrefixOf, ha']
  have h2 : List.isPrefixOf ['*'] (Review.Tok.full (.italic (a :: c'))) = true := by
    simp [Review.Tok.full, List.isPrefixOf]
  have h3 : List.isSuffixOf ['*'] (Review.Tok.full (.italic (a :: c'))) = true := by
    show List.isSuffixOf ['*'] ('*' :: (a :: c') ++ ['*']) = true
    exact isSuffixOf_append_self ['*'] ('*' :: (a :: c'))
  simp [Review.classifyTok, h1, h2, h3]

theorem classify_code (c : List Char) :
    Review.classifyTok (.code c) = some { content := c, code := true } := by
  have hb : ¬ '*' = backtickChar := by decide
  have h1 : List.isPrefixOf ['*', '*'] (Review.Tok.full (.code c)) = false := by
    simp [Review.Tok.full, List.isPrefixOf, hb]
  have h2 : List.isPrefixOf ['*'] (Review.Tok.full (.code c)) = false := by
    simp [Review.Tok.full, List.isPrefixOf, hb]
  have h3 : List.isPrefixOf [backtickChar] (Review.Tok.full (.code c)) = true := by
    simp [Review.Tok.full, List.isPrefixOf]
  have h4 : List.isSuffixOf [backtickChar] (Review.Tok.full (.code c)) = true := by
    show List.isSuffixOf [backtickChar] (backtickChar :: c ++ [backtickChar]) = true
    exact isSuffixOf_append_self [backtickChar] (backtickChar :: c)
  simp [Review.classifyTok, h1, h2, h3, h4]

theorem classify_link (c u : List Char) :
    Review.classifyTok (.link c u) =
      some { content := c, link := some u } := by
  have hb1 : ¬ '*' = '[' := by decide
  have hb2 : ¬ backtickChar = '[' := by decide
  have h1 : List.isPrefixOf ['*', '*'] (Review.Tok.full (.link c u)) = false := by
    simp [Review.Tok.full, List.isPrefixOf, hb1]
  have h2 : List.isPrefixOf ['*'] (Review.Tok.full (.link c u)) = false := by
    simp [Review.Tok.full, List.isPrefixOf, hb1]
  have h3 : List.isPrefixOf [backtickChar] (Review.Tok.full (.link c u)) = false := by
    simp [Review.Tok.full, List.isPrefixOf, hb2]
  have h4 : List.isPrefixOf ['['] (Review.Tok.full (.link c u)) = true := by
    simp [Review.Tok.full, List.isPrefixOf]
  simp [Review.classifyTok, h1, h2, h3, h4]

theorem wfRun_cases (t : InlineRun) (h : wfRun t = true) :
    cleanChars t.content = true ∧ t.strikethrough = false ∧
    (plainRun t = true ∨
      (t.bold = true ∧ t.italic = false ∧ t.code = false ∧ t.link = none) ∨
      (t.bold = false ∧ t.italic = true ∧ t.code = false ∧ t.link = none) ∨
      (t.bold = false ∧ t.italic = false ∧ t.code = true ∧ t.link = none) ∨
      (∃ u, t.bold = false ∧ t.italic = false ∧ t.code = false ∧ t.link = some u ∧
        cleanChars u = true)) := by
  simp only [wfRun, Bool.and_eq_true, Bool.not_eq_true', decide_eq_true_eq] at h
  obtain ⟨⟨⟨hcl, hs⟩, hcount⟩, hlink⟩ := h
  refine ⟨hcl, hs, ?_⟩
  cases hb : t.bold <;> cases hi : t.italic <;> cases hc : t.code <;>
    cases hl : t.link <;> simp_all [annotCount, plainRun]

theorem plainRun_eta (t : InlineRun) (h : plainRun t = true) :
    ({ content := t.content } : InlineRun) = t := by
  rcases t with ⟨tc, tb, ti, tcd, ts, tl⟩
  simp only [plainRun, decide_eq_true_eq, Bool.not_eq_true] at h
  obtain ⟨hb, hi, hc, hs, hl⟩ := h
  simp_all

theorem review_findTok_annot (t : InlineRun) (R : List Char)
    (hwf : wfRun t = true) (hann : plainRun t = false) :
    ∃ k, Review.findTok (NotionTools.runToMarkdown t ++ R) = some ([], k, R) ∧
      Review.classifyTok k = some t := by
  obtain ⟨hclean, hstrike, hcases⟩ := wfRun_cases t hwf
  rcases hcases with hp | ⟨hb, hi, hc, hl⟩ | ⟨hb, hi, hc, hl⟩ | ⟨hb, hi, hc, hl⟩ |
    ⟨u, hb, hi, hc, hl, hu⟩
  · rw [hp] at hann; simp at hann
  · rcases t with ⟨tc, tb, ti, tcd, ts, tl⟩
    simp only at hb hi hc hl hstrike hclean
    subst hb; subst hi; subst hc; subst hl; subst hstrike
    refine ⟨.bold tc, ?_, classify_bold tc⟩
    have heq : NotionTools.runToMarkdown
          ⟨tc, true, false, false, false, none⟩ ++ R =
        '*' :: '*' :: (tc ++ '*' :: '*' :: R) := by
      simp [NotionTools.runToMarkdown]
    rw [heq]
    have htok := review_tryTok_bold tc R hclean
    simp only [Review.findTok, htok]
  · rcases t with ⟨tc, tb, ti, tcd, ts, tl⟩
    simp only at hb hi hc hl hstrike hclean
    subst hb; subst hi; subst hc; subst hl; subst hstrike
    have hne : ¬ tc = [] := by
      simp only [cleanChars, Bool.and_eq_true, decide_eq_true_eq] at hclean
      exact hclean.1
    cases htc : tc with
    | nil => exact absurd htc hne
    | cons a c' =>
      subst htc
      have hcl2 := hclean
      simp only [cleanChars, Bool.and_eq_true, decide_eq_true_eq,
        List.all_cons] at hcl2
      have ha := cleanChar_spec a hcl2.2.1
      refine ⟨.italic (a :: c'), ?_, classify_italic a c' ha.1⟩
      have heq : NotionTools.runToMarkdown
            ⟨a :: c', false, true, false, false, none⟩ ++ R =
          '*' :: ((a :: c') ++ '*' :: R) := by
        simp [NotionTools.runToMarkdown]
      rw [heq]
      have htok := review_tryTok_italic (a :: c') R hclean
      simp only [List.cons_append] at htok ⊢
      simp only [Review.findTok, htok]
  · rcases t with ⟨tc, tb, ti, tcd, ts, tl⟩
    simp only at hb hi hc hl hstrike hclean
    subst hb; subst hi; subst hc; subst hl; subst hstrike
    refine ⟨.code tc, ?_, classify_code tc⟩
    have heq : NotionTools.runToMarkdown
          ⟨tc, false, false, true, false, none⟩ ++ R =
        backtickChar :: (tc ++ backtickChar :: R) := by
      simp [NotionTools.runToMarkdown]
    rw [heq]
    have htok := review_tryTok_code tc R hclean
    simp only [Review.findTok, htok]
  · rcases t with ⟨tc, tb, ti, tcd, ts, tl⟩
    simp only at hb hi hc hl hstrike hclean
    subst hb; subst hi; subst hc; subst hl; subst hstrike
    have hune : ¬ u = [] := by
      simp only [cleanChars, Bool.and_eq_true, decide_eq_true_eq] at hu
      exact hu.1
    refine ⟨.link tc u, ?_, classify_link tc u⟩
    have heq : NotionTools.runToMarkdown
          ⟨tc, false, false, false, false, some u⟩ ++ R =
        '[' :: (tc ++ ']' :: '(' :: (u ++ ')' :: R)) := by
      simp [NotionTools.runToMarkdown, hune]
    rw [heq]
    have htok := review_tryTok_link tc u R hclean hu
    simp only [Review.findTok, htok]

theorem review_scan_annot_step (t : InlineRun) (R : List Char)
    (hwf : wfRun t = true) (hann : plainRun t = false) :
    Review.scanRuns (NotionTools.runToMarkdown t ++ R) = t :: Review.scanRuns R := by
  obtain ⟨k, hfind, hcl⟩ := review_findTok_annot t R hwf hann
  rw [review_scanRuns_some _ _ _ _ hfind]
  simp [hcl]

theorem wfRun_clean_content (t : InlineRun) (h : wfRun t = true) :
    t.content.all cleanChar = true ∧ ¬ t.content = [] := by
  have h2 := (wfRun_cases t h).1
  simp only [cleanChars, Bool.and_eq_true, decide_eq_true_eq] at h2
  exact ⟨h2.2, h2.1⟩

theorem review_scan_plain_end (t : InlineRun)
    (hwf : wfRun t = true) (hp : plainRun t = true) :
    Review.scanRuns t.content = [t] := by
  obtain ⟨hcl, hne⟩ := wfRun_clean_content t hwf
  rw [review_scanRuns_none _ (review_findTok_clean _ hcl)]
  simp [hne, plainRun_eta t hp]

theorem review_scan_plain_annot_step (t u : InlineRun) (R : List Char)
    (hwt : wfRun t = true) (hpt : plainRun t = true)
    (hwu : wfRun u = true) (hpu : plainRun u = false) :
    Review.scanRuns (t.content ++ (NotionTools.runToMarkdown u ++ R)) =
      t :: u :: Review.scanRuns R := by
  obtain ⟨k, hfind, hcl⟩ := review_findTok_annot u R hwu hpu
  obtain ⟨hclt, hnet⟩ := wfRun_clean_content t hwt
  have hfind2 : Review.findTok (t.content ++ (NotionTools.runToMarkdown u ++ R)) =
      some (t.content, k, R) := by
    rw [review_findTok_append_clean t.content hclt, hfind]
    simp
  rw [review_scanRuns_some _ _ _ _ hfind2]
  simp [hnet, hcl, plainRun_eta t hpt]

theorem render_cons (t : InlineRun) (rest : List InlineRun) :
    NotionTools.richTextToMarkdown (t :: rest) =
      NotionTools.runToMarkdown t ++ NotionTools.richTextToMarkdown rest := by
  simp [NotionTools.richTextToMarkdown]

theorem render_nil : NotionTools.richTextToMarkdown [] = [] := rfl

theorem runToMarkdown_plain (t : InlineRun) (hp : plainRun t = true) :
    NotionTools.runToMarkdown t = t.content := by
  simp only [plainRun, decide_eq_true_eq, Bool.not_eq_true] at hp
  obtain ⟨hb, hi, hc, hs, hl⟩ := hp
  simp [NotionTools.runToMarkdown, hb, hi, hc, hs, hl]

theorem wfRuns_cons (t : InlineRun) (rest : List InlineRun)
    (h : wfRuns (t :: rest) = true) :
    wfRun t = true ∧ wfRuns rest = true := by
  cases rest with
  | nil => simpa [wfRuns] using h
  | cons u r =>
    simp only [wfRuns, decide_eq_true_eq] at h
    exact ⟨h.1, by simpa [wfRuns] using h.2.2⟩

theorem wfRuns_cons2 (t u : InlineRun) (r : List InlineRun)
    (h : wfRuns (t :: u :: r) = true) :
    wfRun t = true ∧ (plainRun t = false ∨ plainRun u = false) ∧
      wfRuns (u :: r) = true := by
  simpa [wfRuns] using h

theorem review_roundtrip_aux :
    ∀ (n : Nat) (runs : List InlineRun), runs.length ≤ n →
      wfRuns runs = true → ¬ runs = [] →
      Review.scanRuns (NotionTools.richTextToMarkdown runs) = runs := by
  intro n
  induction n with
  | zero =>
    intro runs hlen _ hne
    cases runs with
    | nil => exact absurd rfl hne
    | cons t r => simp at hlen
  | succ n ih =>
    intro runs hlen hwf hne
    cases runs with
    | nil => exact absurd rfl hne
    | cons t rest =>
      cases rest with
      | nil =>
        have hwt : wfRun t = true := by simpa [wfRuns] using hwf
        rw [render_cons, render_nil, List.append_nil]
        by_cases hp : plainRun t = true
        · rw [runToMarkdown_plain t hp]
          exact review_scan_plain_end t hwt hp
        · have hpf : plainRun t = false := by
            cases hq : plainRun t
            · rfl
            · exact absurd hq hp
          have h := review_scan_annot_step t [] hwt hpf
          rw [List.append_nil] at h
          rw [h]
          rfl
      | cons u r =>
        obtain ⟨hwt, hnp, hwrest⟩ := wfRuns_cons2 t u r hwf
        by_cases hp : plainRun t = true
        · have hwu : wfRun u = true := (wfRuns_cons u r hwrest).1
          have hpu : plainRun u = false := by
            rcases hnp with hnp | hnp
            · rw [hp] at hnp; exact absurd hnp (by simp)
            · exact hnp
          rw [render_cons, render_cons, runToMarkdown_plain t hp]
          rw [review_scan_plain_annot_step t u _ hwt hp hwu hpu]
          cases r with
          | nil =>
            rw [render_nil]
            rfl
          | cons v s =>
            have hwr : wfRuns (v :: s) = true := (wfRuns_cons u (v :: s) hwrest).2
            rw [ih (v :: s) (by simp at hlen ⊢; omega) hwr (by simp)]
        · have hpf : plainRun t = false := by
            cases hq : plainRun t
            · rfl
            · exact absurd hq hp
          rw [render_cons, review_scan_annot_step t _ hwt hpf]
          rw [ih (u :: r) (by simp at hlen ⊢; omega) hwrest (by simp)]

/-- C8 -- counterexample: two adjacent unannotated runs are in the claimed
subset (each run carries at most one annotation, namely none, and there is
no nesting), yet parsing their rendering merges them into a single plain
run, so parseInline(renderInline(runs)) differs from runs. -/
theorem c8_roundtrip_counterexample :
    Review.parseInlineMarkdown (NotionTools.richTextToMarkdown twoPlainRuns) =
      [{ content := ['a', 'b'] }] ∧
    ¬ Review.parseInlineMarkdown (NotionTools.richTextToMarkdown twoPlainRuns) =
      twoPlainRuns := by
  constructor
  · decide
  · decide

/-- C8 -- amended: for every nonempty sequence of wellformed runs
(markdown-safe nonempty content, no strikethrough, at most one of
bold/italic/code/link per run, markdown-safe nonempty url, and no two
adjacent unannotated runs), parsing the rendered markdown recovers the
original runs exactly. -/
theorem c8_roundtrip_amended (runs : List InlineRun)
    (hwf : wfRuns runs = true) (hne : ¬ runs = []) :
    Review.parseInlineMarkdown (NotionTools.richTextToMarkdown runs) = runs := by
  have h := review_roundtrip_aux runs.length runs le_rfl hwf hne
  simp only [Review.parseInlineMarkdown]
  rw [h]
  simp [hne]

/-- C8 -- witness: the concrete run sequence bold('Reduces TAT'),
plain(' by '), italic('40%') is wellformed and round-trips exactly. -/
theorem c8_roundtrip_amended_witness :
    wfRuns demoRuns = true ∧ ¬ demoRuns = [] ∧
    Review.parseInlineMarkdown (NotionTools.richTextToMarkdown demoRuns) =
      demoRuns :=
  ⟨by decide, by decide, c8_roundtrip_amended demoRuns (by decide) (by decide)⟩

theorem parseMarkdownToBlocksGo_filter (ls : List (List Char)) :
    NotionTools.parseMarkdownToBlocksGo ls =
      (ls.filter (fun l => ¬ trimChars l = [])).map NotionTools.lineToBlock := by
  induction ls with
  | nil => rfl
  | cons l rest ih =>
    by_cases h : trimChars l = []
    · simp [NotionTools.parseMarkdownToBlocksGo, h, ih]
    · simp [NotionTools.parseMarkdownToBlocksGo, h, ih]

theorem updatePageContentBlocksGo_filter (ls : List (List Char)) :
    Review.updatePageContentBlocksGo ls =
      (ls.filter (fun l => ¬ trimChars l = [])).map Review.lineToBlock := by
  induction ls with
  | nil => rfl
  | cons l rest ih =>
    by_cases h : trimChars l = []
    · simp [Review.updatePageContentBlocksGo, h, ih]
    · simp [Review.updatePageContentBlocksGo, h, ih]

/-- C9 -- counterexample: the draft converter (`convertMarkdownToBlocks`
in `src/newsletter/draft.ts`) violates one-block-per-non-blank-line in
both directions: a two-line HTML table (2 non-blank lines) collapses to a
single placeholder callout, and a standalone image line with a non-http
url (1 non-blank line) produces no block at all. -/
theorem c9_one_block_per_line_counterexample :
    (Draft.convertMarkdownToBlocks tableMd).length = 1 ∧
    ((splitLines tableMd).filter (fun l => ¬ trimChars l = [])).length = 2 ∧
    Draft.convertMarkdownToBlocks notionImgMd = [] ∧
    ((splitLines notionImgMd).filter (fun l => ¬ trimChars l = [])).length = 1 := by
  refine ⟨by decide, by decide, by decide, by decide⟩

/-- C9 -- amended: the simple converters do satisfy the claim: for every
markdown document, `parseMarkdownToBlocks` (tools/notion.ts) and the
review pipeline's block builder each produce exactly the per-line blocks
of the non-blank lines, in input order (blank lines dropped). -/
theorem c9_one_block_per_line_amended (md : List Char) :
    NotionTools.parseMarkdownToBlocks md =
      ((splitLines md).filter (fun l => ¬ trimChars l = [])).map
        NotionTools.lineToBlock ∧
    Review.updatePageContentBlocks md =
      ((splitLines md).filter (fun l => ¬ trimChars l = [])).map
        Review.lineToBlock :=
  ⟨parseMarkdownToBlocksGo_filter (splitLines md),
   updatePageContentBlocksGo_filter (splitLines md)⟩
